import Mathlib

/-!
# Verification of `logpull-logs.py`

A shallow embedding of the Cloudflare Logpull pull script
(`src/.opencode/skill/cloudflare-logpull/logpull-logs.py`) together with
proofs settling the frozen claims about its specification.

The script's own functions (`parse_duration`, `parse_iso`, `format_time`,
`read_env`, `get_value`, `parse_records`, `main`) are translated directly.
The Python standard-library services the script calls are modelled
executably:

* `json.loads` / `json.dumps(…, ensure_ascii=True)` are modelled by a
  fuel-based recursive-descent parser (`parseVal`) and a serializer
  (`dumpJ`) over an inductive `Json` value type.  Numbers are modelled as
  decimal integers (the script's records never rely on float payloads);
  the JSON library's float/exponent forms and its rejection of leading
  zeros are outside the model.  `ensure_ascii` escaping, including
  `\uXXXX` and surrogate pairs, is modelled in full.
* Python `dict` is modelled by an association list with insertion-order
  update semantics (`assocSet`), `str.strip` / `str.splitlines` /
  substring `in` by executable char-list functions.
* `datetime` instants are modelled as integer seconds since the epoch;
  `timedelta` arithmetic is exact integer arithmetic.
-/

set_option maxHeartbeats 1000000

namespace Logpull

/-! ## Character classes -/

/-- ASCII decimal digit, as matched by the script's duration pattern. -/
def isDigitChar (c : Char) : Bool :=
  48 ≤ c.toNat && c.toNat ≤ 57

/-- Whitespace skipped by the JSON grammar (space, tab, newline, return). -/
def isJsonWs (c : Char) : Bool :=
  c = ' ' || c = '\t' || c = '\n' || c = '\x0d'

/-- Whitespace removed by Python `str.strip()` (the ASCII cases). -/
def isPyWs (c : Char) : Bool :=
  c = ' ' || c = '\t' || c = '\n' || c = '\x0d' || c = '\x0b' || c = '\x0c'

/-- Line boundaries recognised by Python `str.splitlines()`. -/
def isLineBreakChar (c : Char) : Bool :=
  c = '\n' || c = '\x0d' || c = '\x0b' || c = '\x0c' ||
  c = '\x1c' || c = '\x1d' || c = '\x1e' || c = '\x85' ||
  c = '\u2028' || c = '\u2029'

/-- Python `str.strip()` on a char list. -/
def pyStripChars (cs : List Char) : List Char :=
  ((cs.dropWhile isPyWs).reverse.dropWhile isPyWs).reverse

/-- Python `str.strip()`. -/
def pyStrip (s : String) : String :=
  ⟨pyStripChars s.data⟩

/-- Is the first character of `cs` the character `c`? -/
def headIs (cs : List Char) (c : Char) : Bool :=
  match cs with
  | [] => false
  | x :: _ => x = c

/-- Python `str.splitlines()`: accumulator-based splitter; `\x0d\n` counts
as a single boundary and a trailing boundary produces no extra line.
Fuel only bounds recursion; `splitlines` always supplies enough. -/
def splitlinesAux : Nat → List Char → List Char → List (List Char)
  | 0, _, _ => []
  | _ + 1, [], acc => if acc.isEmpty then [] else [acc.reverse]
  | fuel + 1, c :: rest, acc =>
    if c = '\x0d' then
      if headIs rest '\n' then acc.reverse :: splitlinesAux fuel (rest.drop 1) []
      else acc.reverse :: splitlinesAux fuel rest []
    else if isLineBreakChar c then acc.reverse :: splitlinesAux fuel rest []
    else splitlinesAux fuel rest (c :: acc)

/-- Python `str.splitlines()`. -/
def splitlines (cs : List Char) : List (List Char) :=
  splitlinesAux (cs.length + 1) cs []

/-- Does `needle` occur as a leading block of `hay`? -/
def charsMatchAt : List Char → List Char → Bool
  | [], _ => true
  | _ :: _, [] => false
  | a :: as, b :: bs => a = b && charsMatchAt as bs

/-- Python substring test `needle in hay` on char lists. -/
def strContainsL (needle : List Char) : List Char → Bool
  | [] => charsMatchAt needle []
  | c :: rest => charsMatchAt needle (c :: rest) || strContainsL needle rest

/-- Python substring test `needle in hay` on strings. -/
def strContains (hay needle : String) : Bool :=
  strContainsL needle.data hay.data

/-! ## Decimal numerals

The script turns matched digit groups into `int` values, and
`json.dumps` prints integers in decimal.  Both directions are modelled
with explicit executable functions together with a round-trip proof. -/

/-- The decimal digit character for `d < 10`. -/
def digitChar (d : Nat) : Char := Char.ofNat (48 + d)

/-- Fuel-driven decimal printer accumulating least-significant digits
to the front of `acc`. -/
def natDecAux : Nat → Nat → List Char → List Char
  | 0, _, acc => acc
  | fuel + 1, n, acc =>
    if n < 10 then digitChar n :: acc
    else natDecAux fuel (n / 10) (digitChar (n % 10) :: acc)

/-- Decimal representation of a natural number (Python `str(int)` for
nonnegative values). -/
def decRepr (n : Nat) : List Char := natDecAux (n + 1) n []

/-- Decimal representation of a Python `int`, sign included. -/
def intDecChars (n : Int) : List Char :=
  if n < 0 then '-' :: decRepr n.natAbs else decRepr n.natAbs

/-- Fold a block of decimal digit characters onto an accumulator
(the value Python `int(...)` computes on the digit group). -/
def decFold (a : Nat) (ds : List Char) : Nat :=
  ds.foldl (fun x c => 10 * x + (c.toNat - 48)) a

/-- Value of a decimal digit string. -/
def decToNat (ds : List Char) : Nat := decFold 0 ds

/-! ## The JSON value model -/

/-- JSON values as produced by the script's `json.loads`.  Objects carry
their fields in insertion order, mirroring Python `dict`. -/
inductive Json where
  | null
  | bool (b : Bool)
  | num (n : Int)
  | str (s : String)
  | arr (elems : List Json)
  | obj (fields : List (String × Json))

/-- A parsed record: the model of one Python `dict` payload entry. -/
abbrev PyDict := List (String × Json)

mutual

/-- Fuel budget sufficient for `parseVal` to consume a serialized value. -/
def sizeJ : Json → Nat
  | .null => 1
  | .bool _ => 1
  | .num _ => 1
  | .str s => s.data.length + 2
  | .arr xs => 1 + sizeL xs
  | .obj kvs => 1 + sizeO kvs

/-- Fuel budget for `parseArrItems` on serialized elements. -/
def sizeL : List Json → Nat
  | [] => 1
  | v :: vs => 1 + sizeJ v + sizeL vs

/-- Fuel budget for `parseObjItems` on serialized fields. -/
def sizeO : List (String × Json) → Nat
  | [] => 1
  | (k, v) :: kvs => 2 + k.data.length + sizeJ v + sizeO kvs

end

/-- No string occurs twice in the list (fresh dictionary keys). -/
def keysFresh : List String → Bool
  | [] => true
  | k :: rest => !(rest.contains k) && keysFresh rest

mutual

/-- Well-formed values: every object, at any depth, has pairwise distinct
keys (Python dictionaries cannot hold duplicates). -/
def wfJ : Json → Bool
  | .null => true
  | .bool _ => true
  | .num _ => true
  | .str _ => true
  | .arr xs => wfL xs
  | .obj kvs => keysFresh (kvs.map Prod.fst) && wfO kvs

/-- Well-formedness of array elements. -/
def wfL : List Json → Bool
  | [] => true
  | v :: vs => wfJ v && wfL vs

/-- Well-formedness of object field values. -/
def wfO : List (String × Json) → Bool
  | [] => true
  | (_, v) :: kvs => wfJ v && wfO kvs

end

/-! ## `json.dumps(…, ensure_ascii=True)` -/

/-- Lowercase hexadecimal digit character for `d < 16`. -/
def hexDigitChar (d : Nat) : Char :=
  if d < 10 then Char.ofNat (48 + d) else Char.ofNat (87 + d)

/-- Four lowercase hex digits of `n % 0x10000` (Python `'%04x'`). -/
def hex4 (n : Nat) : List Char :=
  [hexDigitChar (n / 4096 % 16), hexDigitChar (n / 256 % 16),
   hexDigitChar (n / 16 % 16), hexDigitChar (n % 16)]

/-- `\uXXXX` escape of one scalar value, surrogate pair above `0xFFFF`. -/
def uEscape (n : Nat) : List Char :=
  if n < 0x10000 then '\\' :: 'u' :: hex4 n
  else
    ('\\' :: 'u' :: hex4 (0xD800 + (n - 0x10000) / 0x400)) ++
    ('\\' :: 'u' :: hex4 (0xDC00 + (n - 0x10000) % 0x400))

/-- `json.dumps` escaping of one character under `ensure_ascii=True`. -/
def escapeChar (c : Char) : List Char :=
  if c = '"' then ['\\', '"']
  else if c = '\\' then ['\\', '\\']
  else if c = '\n' then ['\\', 'n']
  else if c = '\x0d' then ['\\', 'r']
  else if c = '\t' then ['\\', 't']
  else if c = '\x08' then ['\\', 'b']
  else if c = '\x0c' then ['\\', 'f']
  else if c.toNat < 0x20 || 0x7e < c.toNat then uEscape c.toNat
  else [c]

/-- Escape a whole string body. -/
def escapeList : List Char → List Char
  | [] => []
  | c :: cs => escapeChar c ++ escapeList cs

/-- Serialized JSON string literal, quotes included. -/
def dumpStrChars (s : String) : List Char :=
  '"' :: escapeList s.data ++ ['"']

mutual

/-- `json.dumps(value, ensure_ascii=True)` with the default `', '` and
`': '` separators, as a char list. -/
def dumpJ : Json → List Char
  | .null => ("null").data
  | .bool true => ("true").data
  | .bool false => ("false").data
  | .num n => intDecChars n
  | .str s => dumpStrChars s
  | .arr [] => ['[', ']']
  | .arr (v :: vs) => '[' :: (dumpJ v ++ dumpItems vs) ++ [']']
  | .obj [] => ['\x7b', '\x7d']
  | .obj ((k, v) :: kvs) =>
    '\x7b' :: (dumpStrChars k ++ ':' :: ' ' :: dumpJ v ++ dumpFields kvs) ++ ['\x7d']

/-- Remaining array elements, each preceded by `', '`. -/
def dumpItems : List Json → List Char
  | [] => []
  | v :: vs => ',' :: ' ' :: dumpJ v ++ dumpItems vs

/-- Remaining object fields, each preceded by `', '`. -/
def dumpFields : List (String × Json) → List Char
  | [] => []
  | (k, v) :: kvs => ',' :: ' ' :: (dumpStrChars k ++ ':' :: ' ' :: dumpJ v) ++ dumpFields kvs

end

/-- `json.dumps(value, ensure_ascii=True)` as a string. -/
def jsonDumps (v : Json) : String := ⟨dumpJ v⟩

/-! ## Python dictionaries as association lists -/

/-- Python `key in record` / `record[key]` combined: the value stored
under `key`, if present. -/
def assocFind (record : PyDict) (key : String) : Option Json :=
  match record with
  | [] => none
  | (k, v) :: rest => if k = key then some v else assocFind rest key

/-- Python `record[key] = val`: update in place when the key exists,
append otherwise (dictionary insertion order). -/
def assocSet (record : PyDict) (key : String) (val : Json) : PyDict :=
  match record with
  | [] => [(key, val)]
  | (k, v) :: rest =>
    if k = key then (k, val) :: rest else (k, v) :: assocSet rest key val

/-! ## `json.loads` -/

/-- Drop leading JSON whitespace. -/
def skipWs (cs : List Char) : List Char := cs.dropWhile isJsonWs

/-- Value of one hex digit character (either case accepted). -/
def hexVal (c : Char) : Option Nat :=
  if 48 ≤ c.toNat && c.toNat ≤ 57 then some (c.toNat - 48)
  else if 97 ≤ c.toNat && c.toNat ≤ 102 then some (c.toNat - 87)
  else if 65 ≤ c.toNat && c.toNat ≤ 70 then some (c.toNat - 55)
  else none

/-- Read exactly four hex digits. -/
def decodeHex4 : List Char → Option (Nat × List Char)
  | a :: b :: c :: d :: rest =>
    match hexVal a, hexVal b, hexVal c, hexVal d with
    | some x, some y, some z, some w => some (((x * 16 + y) * 16 + z) * 16 + w, rest)
    | _, _, _, _ => none
  | _ => none

/-- Build a character from a scalar value, failing on non-scalars. -/
def mkCharFromCode (n : Nat) (rest : List Char) : Option (Char × List Char) :=
  if n.isValidChar then some (Char.ofNat n, rest) else none

/-- Expect one specific character at the head. -/
def expectChar (c : Char) : List Char → Option (List Char)
  | [] => none
  | x :: rest => if x = c then some rest else none

/-- Decode the body of a `\u` escape, combining surrogate pairs as the
Python decoder does.  Lone surrogates are rejected (Lean characters are
scalar values). -/
def decodeU (cs : List Char) : Option (Char × List Char) :=
  match decodeHex4 cs with
  | none => none
  | some (n, rest) =>
    if 0xD800 ≤ n ∧ n ≤ 0xDBFF then
      match expectChar '\\' rest with
      | none => none
      | some r1 =>
        match expectChar 'u' r1 with
        | none => none
        | some rest2 =>
          match decodeHex4 rest2 with
          | some (m, rest3) =>
            if 0xDC00 ≤ m ∧ m ≤ 0xDFFF then
              mkCharFromCode (0x10000 + (n - 0xD800) * 0x400 + (m - 0xDC00)) rest3
            else none
          | none => none
    else if 0xDC00 ≤ n ∧ n ≤ 0xDFFF then none
    else mkCharFromCode n rest

/-- Read an unsigned decimal integer token. -/
def parseNum (cs : List Char) : Option (Nat × List Char) :=
  let ds := cs.takeWhile isDigitChar
  if ds.isEmpty then none else some (decToNat ds, cs.drop ds.length)

/-- String-literal body parser: `acc` holds already-decoded characters in
reverse.  Strict mode: raw control characters are rejected. -/
def parseStringBody : Nat → List Char → List Char → Option (String × List Char)
  | 0, _, _ => none
  | fuel + 1, acc, cs =>
    match cs with
    | [] => none
    | c :: rest =>
      if c = '"' then some (⟨acc.reverse⟩, rest)
      else if c = '\\' then
        match rest with
        | [] => none
        | e :: r =>
          if e = '"' then parseStringBody fuel ('"' :: acc) r
          else if e = '\\' then parseStringBody fuel ('\\' :: acc) r
          else if e = '/' then parseStringBody fuel ('/' :: acc) r
          else if e = 'n' then parseStringBody fuel ('\n' :: acc) r
          else if e = 'r' then parseStringBody fuel ('\x0d' :: acc) r
          else if e = 't' then parseStringBody fuel ('\t' :: acc) r
          else if e = 'b' then parseStringBody fuel ('\x08' :: acc) r
          else if e = 'f' then parseStringBody fuel ('\x0c' :: acc) r
          else if e = 'u' then
            match decodeU r with
            | some (d, r2) => parseStringBody fuel (d :: acc) r2
            | none => none
          else none
      else if c.toNat < 0x20 then none
      else parseStringBody fuel (c :: acc) rest

mutual

/-- Recursive-descent JSON value parser (model of the scanner behind
`json.loads`).  Fuel only bounds recursion; `jsonLoads` always supplies
more fuel than any input can consume. -/
def parseVal : Nat → List Char → Option (Json × List Char)
  | 0, _ => none
  | fuel + 1, cs =>
    match skipWs cs with
    | [] => none
    | c :: rest =>
      if c = 'n' then
        match rest with
        | 'u' :: 'l' :: 'l' :: r => some (.null, r)
        | _ => none
      else if c = 't' then
        match rest with
        | 'r' :: 'u' :: 'e' :: r => some (.bool true, r)
        | _ => none
      else if c = 'f' then
        match rest with
        | 'a' :: 'l' :: 's' :: 'e' :: r => some (.bool false, r)
        | _ => none
      else if c = '"' then
        match parseStringBody fuel [] rest with
        | some (s, r) => some (.str s, r)
        | none => none
      else if c = '[' then
        let inner := skipWs rest
        if headIs inner ']' then some (.arr [], inner.drop 1)
        else
          match parseArrItems fuel inner with
          | some (vs, r) => some (.arr vs, r)
          | none => none
      else if c = '\x7b' then
        let inner := skipWs rest
        if headIs inner '\x7d' then some (.obj [], inner.drop 1)
        else
          match parseObjItems fuel [] inner with
          | some (kvs, r) => some (.obj kvs, r)
          | none => none
      else if c = '-' then
        match parseNum rest with
        | some (m, r) => some (.num (-(m : Int)), r)
        | none => none
      else
        match parseNum (c :: rest) with
        | some (m, r) => some (.num (m : Int), r)
        | none => none

/-- Comma-separated array elements up to the closing bracket. -/
def parseArrItems : Nat → List Char → Option (List Json × List Char)
  | 0, _ => none
  | fuel + 1, cs =>
    match parseVal fuel cs with
    | none => none
    | some (v, rest) =>
      let rest1 := skipWs rest
      if headIs rest1 ',' then
        match parseArrItems fuel (skipWs (rest1.drop 1)) with
        | some (vs, r) => some (v :: vs, r)
        | none => none
      else if headIs rest1 ']' then some ([v], rest1.drop 1)
      else none

/-- Comma-separated object fields up to the closing brace, accumulated
into a dictionary with Python assignment semantics. -/
def parseObjItems : Nat → PyDict → List Char → Option (PyDict × List Char)
  | 0, _, _ => none
  | fuel + 1, acc, cs =>
    match expectChar '"' (skipWs cs) with
    | none => none
    | some rest =>
      match parseStringBody fuel [] rest with
      | none => none
      | some (k, rest2) =>
        match expectChar ':' (skipWs rest2) with
        | none => none
        | some rest3 =>
          match parseVal fuel (skipWs rest3) with
          | none => none
          | some (v, rest4) =>
            let acc2 := assocSet acc k v
            let rest5 := skipWs rest4
            if headIs rest5 ',' then parseObjItems fuel acc2 (rest5.drop 1)
            else if headIs rest5 '\x7d' then some (acc2, rest5.drop 1)
            else none

end

/-- `json.loads`: parse the whole text, requiring only whitespace after
the single document. -/
def jsonLoads (s : String) : Option Json :=
  match parseVal (2 * s.data.length + 4) s.data with
  | some (v, rest) => if (skipWs rest).isEmpty then some v else none
  | none => none

/-! ## Python `str()` / `repr()` of record values

`get_value` stringifies field values with `str(...)`.  For strings that
is the identity; for other values Python falls back to `repr`-style
text.  The model renders container `repr` with single-quoted strings
(Python's quote-choice refinement for strings containing `'` is outside
the model; no claim depends on it). -/

/-- `repr` escape of one character inside a single-quoted literal. -/
def pyReprStrChar (c : Char) : List Char :=
  if c = '\\' then ['\\', '\\']
  else if c = '\'' then ['\\', '\'']
  else if c = '\n' then ['\\', 'n']
  else if c = '\x0d' then ['\\', 'r']
  else if c = '\t' then ['\\', 't']
  else if c.toNat < 0x20 || c.toNat = 0x7f then
    '\\' :: 'x' :: [hexDigitChar (c.toNat / 16), hexDigitChar (c.toNat % 16)]
  else [c]

/-- Body of a `repr`ed string literal. -/
def pyReprStrAux : List Char → List Char
  | [] => []
  | c :: cs => pyReprStrChar c ++ pyReprStrAux cs

/-- Python `repr` of a string, single-quoted. -/
def pyReprStr (cs : List Char) : List Char :=
  '\'' :: pyReprStrAux cs ++ ['\'']

mutual

/-- Python `repr(value)` for record values. -/
def pyReprJ : Json → List Char
  | .null => ['N', 'o', 'n', 'e']
  | .bool true => ['T', 'r', 'u', 'e']
  | .bool false => ['F', 'a', 'l', 's', 'e']
  | .num n => intDecChars n
  | .str s => pyReprStr s.data
  | .arr [] => ['[', ']']
  | .arr (v :: vs) => '[' :: (pyReprJ v ++ pyReprItems vs) ++ [']']
  | .obj [] => ['\x7b', '\x7d']
  | .obj ((k, v) :: kvs) =>
    '\x7b' :: (pyReprStr k.data ++ ':' :: ' ' :: pyReprJ v ++ pyReprFields kvs) ++ ['\x7d']

/-- Remaining `repr`ed list elements. -/
def pyReprItems : List Json → List Char
  | [] => []
  | v :: vs => ',' :: ' ' :: pyReprJ v ++ pyReprItems vs

/-- Remaining `repr`ed dict fields. -/
def pyReprFields : List (String × Json) → List Char
  | [] => []
  | (k, v) :: kvs =>
    ',' :: ' ' :: (pyReprStr k.data ++ ':' :: ' ' :: pyReprJ v) ++ pyReprFields kvs

end

/-- Python `str(value)`: the string itself for `str`, `repr`-style text
for every other value. -/
def pyStr : Json → String
  | .str s => s
  | v => ⟨pyReprJ v⟩

/-! ## The script's helper functions -/

/-- `get_value(record, keys)`: try each candidate key in order; on the
first key present, return `str(value)`, or no value when it is `None`. -/
def get_value (record : PyDict) (keys : List String) : Option String :=
  match keys with
  | [] => none
  | key :: rest =>
    match assocFind record key with
    | some value =>
      match value with
      | .null => none
      | v => some (pyStr v)
    | none => get_value record rest

/-- The list-shaped branch of `parse_records`: keep exactly the elements
that are mappings. -/
def recordsOfItems (items : List Json) : List PyDict :=
  items.filterMap fun item =>
    match item with
    | .obj kvs => some kvs
    | _ => none

/-- The newline-delimited fallback loop of `parse_records` (lines 71-82):
strip each line, skip blank lines, parse each line as JSON, keep lines
that parse to a mapping; parse failures and non-mappings are skipped. -/
def parseLines (payload : String) : List PyDict :=
  (splitlines payload.data).filterMap fun lineCs =>
    let line := pyStripChars lineCs
    if line.isEmpty then none
    else
      match jsonLoads ⟨line⟩ with
      | some (.obj kvs) => some kvs
      | _ => none

/-- `parse_records(payload)`: empty/whitespace-only body gives no
records; a whole-body JSON array keeps its mapping elements; a whole-body
JSON mapping is a singleton; any other whole-body parse (failure, or a
document that is neither list nor dict) falls through to the
newline-delimited loop. -/
def parse_records (payload : String) : List PyDict :=
  if (pyStripChars payload.data).isEmpty then []
  else
    match jsonLoads payload with
    | some (.arr items) => recordsOfItems items
    | some (.obj kvs) => [kvs]
    | _ => parseLines payload

/-- Seconds per duration unit: the `timedelta` the script builds for
`s`/`m`/`h`, and days for the remaining accepted unit `d`. -/
def unitSecs (u : Char) : Nat :=
  if u = 's' then 1
  else if u = 'm' then 60
  else if u = 'h' then 3600
  else 86400

/-- `parse_duration(value)`: match `^(\d+)([smhd])$` against the stripped
value and return the duration in seconds; `none` models the raised
`ValueError`.  (The regex `\d` is modelled by ASCII digits.) -/
def parse_duration (value : String) : Option Nat :=
  let cs := pyStripChars value.data
  match cs.getLast? with
  | none => none
  | some u =>
    let digits := cs.dropLast
    if digits.isEmpty then none
    else if digits.all isDigitChar && (u = 's' || u = 'm' || u = 'h' || u = 'd') then
      some (decToNat digits * unitSecs u)
    else none

/-! ## Calendar arithmetic

`datetime` instants are modelled as integer seconds since the Unix
epoch.  The civil-date conversions below are the standard
era-decomposition algorithms; they make `parse_iso` and `format_time`
executable. -/

/-- Days since 1970-01-01 of a civil date. -/
def daysFromCivil (y m d : Int) : Int :=
  let yAdj := if m ≤ 2 then y - 1 else y
  let era := yAdj.ediv 400
  let yoe := yAdj - era * 400
  let mp := (m + 9).emod 12
  let doy := (153 * mp + 2).ediv 5 + d - 1
  let doe := yoe * 365 + yoe.ediv 4 - yoe.ediv 100 + doy
  era * 146097 + doe - 719468

/-- Civil date of a day count since 1970-01-01. -/
def civilFromDays (z : Int) : Int × Int × Int :=
  let z2 := z + 719468
  let era := z2.ediv 146097
  let doe := z2 - era * 146097
  let yoe := (doe - doe.ediv 1460 + doe.ediv 36524 - doe.ediv 146096).ediv 365
  let y := yoe + era * 400
  let doy := doe - (365 * yoe + yoe.ediv 4 - yoe.ediv 100)
  let mp := (5 * doy + 2).ediv 153
  let d := doy - (153 * mp + 2).ediv 5 + 1
  let m := mp + (if mp < 10 then 3 else -9)
  (if m ≤ 2 then y + 1 else y, m, d)

/-- Read exactly two decimal digits. -/
def read2 : List Char → Option (Nat × List Char)
  | a :: b :: rest =>
    if isDigitChar a && isDigitChar b then
      some ((a.toNat - 48) * 10 + (b.toNat - 48), rest)
    else none
  | _ => none

/-- Read exactly four decimal digits. -/
def read4 : List Char → Option (Nat × List Char)
  | a :: b :: c :: d :: rest =>
    if isDigitChar a && isDigitChar b && isDigitChar c && isDigitChar d then
      some (((a.toNat - 48) * 1000 + (b.toNat - 48) * 100 +
             (c.toNat - 48) * 10 + (d.toNat - 48)), rest)
    else none
  | _ => none

/-- Models `parse_iso`: the script strips the value, rewrites a trailing
`Z` into `+00:00`, parses with `datetime.fromisoformat`, labels naive
results as UTC and converts aware ones to UTC.  The model covers the
second-precision forms `YYYY-MM-DD[T ]HH:MM:SS[±HH:MM]` this tool
receives (fractional seconds and partial forms accepted by
`fromisoformat` are outside the model).  Result: epoch seconds (UTC),
`none` modelling the raised `ValueError`. -/
def parse_iso (value : String) : Option Int :=
  let cs := pyStripChars value.data
  let cleaned := if headIs cs.reverse 'Z' then cs.dropLast ++ ['+', '0', '0', ':', '0', '0'] else cs
  match read4 cleaned with
  | none => none
  | some (y, r1) =>
    match expectChar '-' r1 with
    | none => none
    | some r2 =>
      match read2 r2 with
      | none => none
      | some (mo, r3) =>
        match expectChar '-' r3 with
        | none => none
        | some r4 =>
          match read2 r4 with
          | none => none
          | some (da, r5) =>
            match r5 with
            | [] => none
            | sep :: r6 =>
              if sep = 'T' || sep = ' ' then
                match read2 r6 with
                | none => none
                | some (ho, r7) =>
                  match expectChar ':' r7 with
                  | none => none
                  | some r8 =>
                    match read2 r8 with
                    | none => none
                    | some (mi, r9) =>
                      match expectChar ':' r9 with
                      | none => none
                      | some r10 =>
                        match read2 r10 with
                        | none => none
                        | some (se, r11) =>
                          let naive : Int :=
                            daysFromCivil y mo da * 86400 + ho * 3600 + mi * 60 + se
                          match r11 with
                          | [] => some naive
                          | sign :: r12 =>
                            if sign = '+' || sign = '-' then
                              match read2 r12 with
                              | none => none
                              | some (oh, r13) =>
                                match expectChar ':' r13 with
                                | none => none
                                | some r14 =>
                                  match read2 r14 with
                                  | none => none
                                  | some (om, r15) =>
                                    if r15.isEmpty then
                                      let off : Int := (oh * 3600 + om * 60 : Nat)
                                      some (if sign = '+' then naive - off else naive + off)
                                    else none
                            else none
              else none

/-- Two-digit zero-padded decimal. -/
def pad2 (n : Int) : List Char :=
  if 0 ≤ n ∧ n < 10 then '0' :: intDecChars n else intDecChars n

/-- Four-digit zero-padded decimal (covers the years this tool sees). -/
def pad4 (n : Int) : List Char :=
  if 0 ≤ n ∧ n < 10 then '0' :: '0' :: '0' :: intDecChars n
  else if 0 ≤ n ∧ n < 100 then '0' :: '0' :: intDecChars n
  else if 0 ≤ n ∧ n < 1000 then '0' :: intDecChars n
  else intDecChars n

/-- `strftime("%Y-%m-%dT%H:%M:%SZ")` of an epoch instant. -/
def rfc3339Chars (t : Int) : List Char :=
  let days := t.ediv 86400
  let secs := t.emod 86400
  let ymd := civilFromDays days
  pad4 ymd.1 ++ '-' :: pad2 ymd.2.1 ++ '-' :: pad2 ymd.2.2 ++
    'T' :: pad2 (secs.ediv 3600) ++ ':' :: pad2 ((secs.emod 3600).ediv 60) ++
    ':' :: pad2 (secs.emod 60) ++ ['Z']

/-- `format_time(value, mode)`. -/
def format_time (t : Int) (mode : String) : String :=
  if mode = "unix" then ⟨intDecChars t⟩ else ⟨rfc3339Chars t⟩

/-! ## Argument handling and the main pipeline -/

/-- Python truthiness of an optional string (`None` and `""` are falsy). -/
def truthy : Option String → Bool
  | none => false
  | some s => !(s = "")

/-- Python `a or b` over optional strings. -/
def pyOr (a b : Option String) : Option String :=
  if truthy a then a else b

/-- `read_env(name, default)` over an abstract environment. -/
def read_env (env : String → Option String) (name : String) (dflt : Option String) :
    Option String :=
  match env name with
  | none => dflt
  | some v => some v

/-- The `argparse` result.  `--from`/`--to` land in `start`/`endArg`
(Python attribute `end`); `--raw` is a store-true flag; `--limit` is an
`int`; `--sample` is a `float` carried opaquely as its `str(...)` image
(nothing ever computes with it). -/
structure Args where
  since : Option String := none
  start : Option String := none
  endArg : Option String := none
  ray : Option String := none
  worker : Option String := none
  status : Option String := none
  path : Option String := none
  contains : Option String := none
  fields : Option String := none
  dataset : Option String := none
  endpoint : Option String := none
  limit : Option Int := none
  sample : Option String := none
  raw : Bool := false

/-- Result of the time-window section of `main` (lines 112-131). -/
inductive WindowResult where
  | ok (startTime endTime : Int)
  | usageError (msg : String)

/-- Lines 112-131 of `main`: `--since` (when truthy) wins and resolves
against `now`; otherwise both `--from` and `--to` must be truthy and
parse as timestamps. -/
def resolveWindow (since startArg endArg : Option String) (now : Int) : WindowResult :=
  if truthy since then
    match parse_duration (since.getD "") with
    | none => .usageError "Duration must be like 15m, 2h, 1d"
    | some secs => .ok (now - secs) now
  else if !(truthy startArg) || !(truthy endArg) then
    .usageError "Provide --since or both --from/--to"
  else
    match parse_iso (startArg.getD ""), parse_iso (endArg.getD "") with
    | some s, some e => .ok s e
    | _, _ => .usageError "Invalid time format; use RFC3339 like 2026-01-27T12:00:00Z"

/-- Alias keys for the `--ray` filter. -/
def rayKeys : List String := ["RayID", "RayId", "ray_id"]

/-- Alias keys for the `--worker` filter. -/
def workerKeys : List String := ["ScriptName", "WorkerName", "worker", "script_name"]

/-- Alias keys for the `--status` filter. -/
def statusKeys : List String := ["Status", "EdgeStatus", "status", "Outcome"]

/-- Alias keys for the `--path` filter. -/
def pathKeys : List String := ["Path", "RequestPath", "RequestURL", "URL", "uri"]

/-- One aliased-field filter: applied only when the flag is truthy; the
record passes when the resolved value exists, is nonempty, and contains
the filter string as a substring. -/
def fieldPass (flt : Option String) (keys : List String) (record : PyDict) : Bool :=
  if truthy flt then
    match get_value record keys with
    | none => false
    | some v => !(v = "") && strContains v (flt.getD "")
  else true

/-- The `--contains` filter over the serialized record. -/
def containsPass (flt : Option String) (record : PyDict) : Bool :=
  if truthy flt then strContains (jsonDumps (Json.obj record)) (flt.getD "")
  else true

/-- The conjunction of the five `continue` guards of the output loop. -/
def passesFilters (args : Args) (record : PyDict) : Bool :=
  fieldPass args.ray rayKeys record &&
  fieldPass args.worker workerKeys record &&
  fieldPass args.status statusKeys record &&
  fieldPass args.path pathKeys record &&
  containsPass args.contains record

/-- Python `if args.limit and output_count >= args.limit` after the
count was incremented to `count`. -/
def limitReached (limit : Option Int) (count : Nat) : Bool :=
  match limit with
  | none => false
  | some n => !(n = 0) && n ≤ (count : Int)

/-- What the output loop (lines 189-218) did: the printed lines and the
records that were actually evaluated against the filters. -/
structure EmitResult where
  outputs : List String
  evaluated : List PyDict

/-- The output loop: each record reaching the loop head is evaluated;
matches are printed; after printing, a truthy limit that has been
reached breaks out, leaving later records unevaluated. -/
def emitLoop (args : Args) : List PyDict → Nat → EmitResult
  | [], _ => ⟨[], []⟩
  | r :: rs, count =>
    if passesFilters args r then
      let line := jsonDumps (Json.obj r)
      if limitReached args.limit (count + 1) then ⟨[line], [r]⟩
      else
        let rest := emitLoop args rs (count + 1)
        ⟨line :: rest.outputs, r :: rest.evaluated⟩
    else
      let rest := emitLoop args rs count
      ⟨rest.outputs, r :: rest.evaluated⟩

/-- What the process printed and returned. -/
structure RunOutput where
  exitCode : Nat
  stdoutLines : List String

/-- Lines 180-220 of `main`: everything after the response body arrived.
`--raw` prints the body verbatim; otherwise zero parsed records print the
stripped body; otherwise the filter loop runs.  Exit status 0 throughout. -/
def mainAfterFetch (args : Args) (payload : String) : RunOutput :=
  if args.raw then ⟨0, [payload]⟩
  else
    match parse_records payload with
    | [] => ⟨0, [pyStrip payload]⟩
    | r :: rs => ⟨0, (emitLoop args (r :: rs) 0).outputs⟩

/-- Outcome of the single `urlopen` call, supplied as an oracle: the
decoded body, an HTTP error (with best-effort error body), or a
transport failure. -/
inductive FetchOutcome where
  | ok (body : String)
  | httpError (code : Nat) (reason : String) (body : Option String)
  | urlError (reason : String)

/-- Full observable result of one run of `main`. -/
structure ProgResult where
  exitCode : Nat
  stdoutLines : List String
  stderrLines : List String
  networkAttempted : Bool
  requestUrl : Option String

/-- Joined query text (`urllib.parse.urlencode` without percent-quoting;
none of the claims inspects the quoted form). -/
def urlencodeSimple (params : List (String × String)) : String :=
  String.intercalate "&" (params.map fun kv => kv.1 ++ "=" ++ kv.2)

/-- `main(args)` with the process environment, the UTC clock value taken
at window-resolution time, and the transport outcome supplied as
parameters.  Mirrors lines 85-220 of the script. -/
def main (args : Args) (env : String → Option String) (now : Int)
    (fetch : FetchOutcome) : ProgResult :=
  let account_id := read_env env "CLOUDFLARE_ACCOUNT_ID" none
  let token := read_env env "CLOUDFLARE_API_TOKEN" none
  if !(truthy account_id) || !(truthy token) then
    ⟨1, [], ["Missing CLOUDFLARE_ACCOUNT_ID or CLOUDFLARE_API_TOKEN"], false, none⟩
  else
    let time_format :=
      (pyOr (read_env env "CLOUDFLARE_LOGPULL_TIME_FORMAT" (some "rfc3339"))
        (some "rfc3339")).getD "rfc3339"
    match resolveWindow args.since args.start args.endArg now with
    | .usageError msg => ⟨1, [], [msg], false, none⟩
    | .ok startTime endTime =>
      let endpoint :=
        (pyOr args.endpoint
          (pyOr (read_env env "CLOUDFLARE_LOGPULL_ENDPOINT" none)
            (some ((read_env env "CLOUDFLARE_LOGPULL_BASE_URL"
                (some "https://api.cloudflare.com/client/v4")).getD "" ++
              "/accounts/" ++ account_id.getD "" ++ "/logs/received")))).getD ""
      let baseParams :=
        [("start", format_time startTime time_format),
         ("end", format_time endTime time_format)]
      let dataset :=
        pyOr args.dataset
          (read_env env "CLOUDFLARE_LOGPULL_DATASET" (some "workers_trace_events"))
      let withDataset :=
        baseParams ++ (if truthy dataset then [("dataset", dataset.getD "")] else [])
      let fields := pyOr args.fields (read_env env "CLOUDFLARE_LOGPULL_FIELDS" none)
      let withFields :=
        withDataset ++ (if truthy fields then [("fields", fields.getD "")] else [])
      let params :=
        withFields ++ (match args.sample with
          | some s => [("sample", s)]
          | none => [])
      let url := endpoint ++ "?" ++ urlencodeSimple params
      match fetch with
      | .httpError code reason body =>
        ⟨1, [],
          ("Logpull error: " ++ (⟨decRepr code⟩ : String) ++ " " ++ reason) ::
            (match body with
             | some b => [b]
             | none => []),
          true, some url⟩
      | .urlError reason =>
        ⟨1, [], ["Logpull request failed: " ++ reason], true, some url⟩
      | .ok payload =>
        let r := mainAfterFetch args payload
        ⟨r.exitCode, r.stdoutLines, [], true, some url⟩

/-! ## Statement-support definitions -/

/-- The next character, if any, is not a digit, so a decimal token ends
exactly at the boundary. -/
def numBoundary : List Char → Bool
  | [] => true
  | c :: _ => !(isDigitChar c)

/-- Newline-delimited join (the NDJSON body built from record lines). -/
def joinNL : List String → String
  | [] => ""
  | [s] => s
  | s :: rest => s ++ "\n" ++ joinNL rest

/-- The four duration units the script accepts. -/
inductive TimeUnit where
  | s
  | m
  | h
  | d

/-- The unit's letter. -/
def TimeUnit.chr : TimeUnit → Char
  | .s => 's'
  | .m => 'm'
  | .h => 'h'
  | .d => 'd'

/-- The unit's length in seconds. -/
def TimeUnit.secs : TimeUnit → Nat
  | .s => 1
  | .m => 60
  | .h => 3600
  | .d => 86400

/-- How many records of the sequence pass the configured filters. -/
def matchCount (args : Args) (records : List PyDict) : Nat :=
  (records.filter (passesFilters args)).length

/-- Serialized elements of a nonempty array, commas between them. -/
def dumpItemsFirst : List Json → List Char
  | [] => []
  | v :: vs => dumpJ v ++ dumpItems vs

/-- Serialized fields of a nonempty object, commas between them. -/
def dumpFieldsFirst : List (String × Json) → List Char
  | [] => []
  | (k, v) :: kvs => dumpStrChars k ++ ':' :: ' ' :: dumpJ v ++ dumpFields kvs

/-- Python dictionary construction from parsed key/value pairs. -/
def dictOfPairs (acc : PyDict) (kvs : List (String × Json)) : PyDict :=
  kvs.foldl (fun a kv => assocSet a kv.1 kv.2) acc

/-! ## Character and numeral lemmas -/

theorem toNat_ofNat_valid {n : Nat} (h : n.isValidChar) : (Char.ofNat n).toNat = n := by
  simp only [Char.ofNat, h, dite_true, Char.ofNatAux, Char.toNat, UInt32.toNat,
    BitVec.toNat_ofNatLt]

theorem char_ne_of_toNat_ne {c d : Char} (h : c.toNat ≠ d.toNat) : c ≠ d :=
  fun he => h (congrArg Char.toNat he)

theorem toNat_digitChar {d : Nat} (h : d < 10) : (digitChar d).toNat = 48 + d :=
  toNat_ofNat_valid (Or.inl (by omega))

theorem decFold_append (a : Nat) (l r : List Char) :
    decFold a (l ++ r) = decFold (decFold a l) r := by
  simp [decFold, List.foldl_append]

theorem natDecAux_spec :
    ∀ n fuel acc, n < fuel →
      ∃ ds, natDecAux fuel n acc = ds ++ acc ∧ ds ≠ [] ∧
        (∀ c ∈ ds, 48 ≤ c.toNat ∧ c.toNat ≤ 57) ∧
        ∀ a, decFold a ds = a * 10 ^ ds.length + n := by
  intro n
  induction n using Nat.strong_induction_on with
  | _ n ih =>
    intro fuel acc hf
    match fuel, hf with
    | fuel + 1, _ =>
      by_cases h10 : n < 10
      · refine ⟨[digitChar n], by simp [natDecAux, h10], by simp, ?_, ?_⟩
        · intro c hc
          rw [List.mem_singleton] at hc
          subst hc
          rw [toNat_digitChar h10]
          omega
        · intro a
          simp only [decFold, List.foldl_cons, List.foldl_nil, List.length_singleton,
            pow_one, toNat_digitChar h10]
          omega
      · obtain ⟨ds, heq, hne, hdig, hval⟩ :=
          ih (n / 10) (by omega) fuel (digitChar (n % 10) :: acc) (by omega)
        refine ⟨ds ++ [digitChar (n % 10)], ?_, by simp, ?_, ?_⟩
        · simp [natDecAux, h10, heq]
        · intro c hc
          rcases List.mem_append.mp hc with h | h
          · exact hdig c h
          · rw [List.mem_singleton] at h
            subst h
            rw [toNat_digitChar (by omega)]
            omega
        · intro a
          rw [decFold_append, hval a]
          simp only [decFold, List.foldl_cons, List.foldl_nil, List.length_append,
            List.length_singleton, toNat_digitChar (Nat.mod_lt n (by omega))]
          rw [pow_succ]
          have hsplit : 10 * (n / 10) + n % 10 = n := Nat.div_add_mod n 10
          ring_nf
          omega

theorem decRepr_facts (n : Nat) :
    decRepr n ≠ [] ∧ (∀ c ∈ decRepr n, 48 ≤ c.toNat ∧ c.toNat ≤ 57) ∧
      decToNat (decRepr n) = n := by
  obtain ⟨ds, heq, hne, hdig, hval⟩ := natDecAux_spec n (n + 1) [] (by omega)
  rw [List.append_nil] at heq
  rw [decRepr, heq]
  refine ⟨hne, hdig, ?_⟩
  rw [decToNat, hval 0]
  omega

theorem isDigitChar_of_bounds {c : Char} (h : 48 ≤ c.toNat ∧ c.toNat ≤ 57) :
    isDigitChar c = true := by
  simp [isDigitChar]
  omega

theorem takeWhile_digits_append (ds rest : List Char)
    (h : ∀ c ∈ ds, isDigitChar c = true) (hb : numBoundary rest = true) :
    (ds ++ rest).takeWhile isDigitChar = ds := by
  induction ds with
  | nil =>
    cases rest with
    | nil => rfl
    | cons c t =>
      simp only [numBoundary, Bool.not_eq_true'] at hb
      simp [List.takeWhile_cons, hb]
  | cons c t ih =>
    have hc := h c (List.mem_cons_self c t)
    simp only [List.cons_append, List.takeWhile_cons, hc, if_true]
    rw [ih (fun x hx => h x (List.mem_cons_of_mem c hx))]

theorem parseNum_decRepr (n : Nat) (rest : List Char) (hb : numBoundary rest = true) :
    parseNum (decRepr n ++ rest) = some (n, rest) := by
  obtain ⟨hne, hdig, hval⟩ := decRepr_facts n
  have htw : (decRepr n ++ rest).takeWhile isDigitChar = decRepr n :=
    takeWhile_digits_append _ _ (fun c hc => isDigitChar_of_bounds (hdig c hc)) hb
  simp only [parseNum, htw, List.isEmpty_eq_true, hne, if_false, List.drop_left, hval]

/-! ## Whitespace lemmas -/

theorem skipWs_cons (c : Char) (l : List Char) :
    skipWs (c :: l) = if isJsonWs c then skipWs l else c :: l :=
  List.dropWhile_cons

theorem skipWs_not_ws {c : Char} (l : List Char) (h : isJsonWs c = false) :
    skipWs (c :: l) = c :: l := by
  rw [skipWs_cons, h]
  rfl

/-! ## Hex and escape round-trips -/

theorem hexVal_hexDigitChar {d : Nat} (h : d < 16) : hexVal (hexDigitChar d) = some d := by
  interval_cases d <;> decide

theorem decodeHex4_hex4 {n : Nat} (h : n < 0x10000) (rest : List Char) :
    decodeHex4 (hex4 n ++ rest) = some (n, rest) := by
  have h1 : n / 4096 % 16 < 16 := Nat.mod_lt _ (by omega)
  have h2 : n / 256 % 16 < 16 := Nat.mod_lt _ (by omega)
  have h3 : n / 16 % 16 < 16 := Nat.mod_lt _ (by omega)
  have h4 : n % 16 < 16 := Nat.mod_lt _ (by omega)
  simp only [hex4, List.cons_append, List.nil_append, decodeHex4,
    hexVal_hexDigitChar h1, hexVal_hexDigitChar h2, hexVal_hexDigitChar h3,
    hexVal_hexDigitChar h4, Option.some.injEq, Prod.mk.injEq]
  exact ⟨by omega, trivial⟩

theorem valid_toNat (c : Char) : c.toNat.isValidChar := c.valid

theorem mkCharFromCode_valid {n : Nat} (h : n.isValidChar) (rest : List Char) :
    mkCharFromCode n rest = some (Char.ofNat n, rest) := by
  simp [mkCharFromCode, h]

theorem decodeU_low {n : Nat} (h : n.isValidChar) (h2 : n < 0x10000) (rest : List Char) :
    decodeU (hex4 n ++ rest) = some (Char.ofNat n, rest) := by
  have hs : ¬(0xD800 ≤ n ∧ n ≤ 0xDBFF) := by
    rcases h with h | h <;> omega
  have hs2 : ¬(0xDC00 ≤ n ∧ n ≤ 0xDFFF) := by
    rcases h with h | h <;> omega
  rw [decodeU, decodeHex4_hex4 h2]
  dsimp only
  rw [if_neg hs, if_neg hs2, mkCharFromCode_valid h]

theorem expectChar_hit (c : Char) (l : List Char) : expectChar c (c :: l) = some l := by
  simp [expectChar]

theorem decodeU_pair {hi lo : Nat} (hhi : 0xD800 ≤ hi ∧ hi ≤ 0xDBFF)
    (hlo : 0xDC00 ≤ lo ∧ lo ≤ 0xDFFF)
    (hv : (0x10000 + (hi - 0xD800) * 0x400 + (lo - 0xDC00)).isValidChar)
    (rest : List Char) :
    decodeU (hex4 hi ++ ('\\' :: 'u' :: (hex4 lo ++ rest))) =
      some (Char.ofNat (0x10000 + (hi - 0xD800) * 0x400 + (lo - 0xDC00)), rest) := by
  rw [decodeU, decodeHex4_hex4 (by omega)]
  dsimp only
  rw [if_pos hhi, expectChar_hit]
  dsimp only
  rw [expectChar_hit]
  dsimp only
  rw [decodeHex4_hex4 (by omega)]
  dsimp only
  rw [if_pos hlo, mkCharFromCode_valid hv]

theorem decodeU_high {n : Nat} (h : n.isValidChar) (h2 : 0x10000 ≤ n) (rest : List Char) :
    decodeU (hex4 (0xD800 + (n - 0x10000) / 0x400) ++
      ('\\' :: 'u' :: (hex4 (0xDC00 + (n - 0x10000) % 0x400) ++ rest))) =
      some (Char.ofNat n, rest) := by
  have hn : n < 0x110000 := by
    rcases h with h | h <;> omega
  have hmod := Nat.mod_lt (n - 0x10000) (y := 0x400) (by omega)
  have hdiv : (n - 0x10000) / 0x400 ≤ 0x3FF := by
    have := Nat.div_le_div_right (c := 0x400) (le_of_lt (show n - 0x10000 < 0x100000 by omega))
    omega
  have hrecon : 0x10000 + (0xD800 + (n - 0x10000) / 0x400 - 0xD800) * 0x400 +
      (0xDC00 + (n - 0x10000) % 0x400 - 0xDC00) = n := by omega
  rw [decodeU_pair (by omega) (by omega) (by rw [hrecon]; exact h)]
  rw [hrecon]

/-! ## String-literal round-trip -/

theorem psb_u (fuel : Nat) (acc r : List Char) :
    parseStringBody (fuel + 1) acc ('\\' :: 'u' :: r) =
      (match decodeU r with
       | some (d, r2) => parseStringBody fuel (d :: acc) r2
       | none => none) := rfl

theorem psb_safe (fuel : Nat) (acc : List Char) (c : Char) (r : List Char)
    (h1 : ¬(c = '"')) (h2 : ¬(c = '\\')) (h3 : ¬(c.toNat < 0x20)) :
    parseStringBody (fuel + 1) acc (c :: r) = parseStringBody fuel (c :: acc) r := by
  simp only [parseStringBody]
  rw [if_neg h1, if_neg h2, if_neg h3]

theorem parseStringBody_escape (fuel : Nat) (acc : List Char) (c : Char) (cs : List Char) :
    parseStringBody (fuel + 1) acc (escapeChar c ++ cs) = parseStringBody fuel (c :: acc) cs := by
  by_cases h1 : c = '"'
  · subst h1
    rfl
  by_cases h2 : c = '\\'
  · subst h2
    rfl
  by_cases h3 : c = '\n'
  · subst h3
    rfl
  by_cases h4 : c = '\x0d'
  · subst h4
    rfl
  by_cases h5 : c = '\t'
  · subst h5
    rfl
  by_cases h6 : c = '\x08'
  · subst h6
    rfl
  by_cases h7 : c = '\x0c'
  · subst h7
    rfl
  rw [escapeChar, if_neg h1, if_neg h2, if_neg h3, if_neg h4, if_neg h5, if_neg h6, if_neg h7]
  by_cases h8 : c.toNat < 0x20 ∨ 0x7e < c.toNat
  · have hcond : (decide (c.toNat < 0x20) || decide (0x7e < c.toNat)) = true := by
      rcases h8 with h | h <;> simp [h]
    rw [if_pos hcond]
    by_cases hlow : c.toNat < 0x10000
    · rw [uEscape, if_pos hlow]
      simp only [List.cons_append]
      rw [psb_u, decodeU_low (valid_toNat c) hlow]
      rw [Char.ofNat_toNat]
    · rw [uEscape, if_neg hlow]
      simp only [List.cons_append, List.append_assoc]
      rw [psb_u, decodeU_high (valid_toNat c) (by omega)]
      rw [Char.ofNat_toNat]
  · have hcond : (decide (c.toNat < 0x20) || decide (0x7e < c.toNat)) = false := by
      push_neg at h8
      simp only [Bool.or_eq_false_iff, decide_eq_false_iff_not]
      omega
    rw [if_neg (by simp [hcond])]
    simp only [List.singleton_append]
    exact psb_safe fuel acc c cs h1 h2 (by push_neg at h8; omega)

theorem parseStringBody_complete (cs : List Char) :
    ∀ fuel acc rest, cs.length < fuel →
      parseStringBody fuel acc (escapeList cs ++ '"' :: rest) =
        some (⟨acc.reverse ++ cs⟩, rest) := by
  induction cs with
  | nil =>
    intro fuel acc rest h
    match fuel, h with
    | fuel + 1, _ =>
      simp only [escapeList, List.nil_append, List.append_nil]
      rfl
  | cons c t ih =>
    intro fuel acc rest h
    match fuel, h with
    | fuel + 1, h2 =>
      have heq : escapeList (c :: t) ++ '"' :: rest = escapeChar c ++ (escapeList t ++ '"' :: rest) := by
        simp [escapeList, List.append_assoc]
      rw [heq, parseStringBody_escape,
        ih fuel (c :: acc) rest (by simp only [List.length_cons] at h2; omega)]
      simp

/-! ## Heads of serialized values -/

theorem decRepr_head (n : Nat) :
    ∃ c cs, decRepr n = c :: cs ∧ 48 ≤ c.toNat ∧ c.toNat ≤ 57 := by
  obtain ⟨hne, hdig, _⟩ := decRepr_facts n
  match h : decRepr n with
  | [] => exact absurd h hne
  | c :: cs =>
    have := hdig c (by rw [h]; exact List.mem_cons_self c cs)
    exact ⟨c, cs, rfl, this.1, this.2⟩

/-- Every serialized value starts with a character that is not JSON
whitespace and is neither a close bracket nor a close brace. -/
theorem dumpJ_head (v : Json) :
    ∃ c cs, dumpJ v = c :: cs ∧ isJsonWs c = false ∧ c ≠ ']' ∧ c ≠ '\x7d' := by
  match v with
  | .null => exact ⟨'n', _, rfl, by decide, by decide, by decide⟩
  | .bool true => exact ⟨'t', _, rfl, by decide, by decide, by decide⟩
  | .bool false => exact ⟨'f', _, rfl, by decide, by decide, by decide⟩
  | .str s => exact ⟨'"', _, rfl, by decide, by decide, by decide⟩
  | .arr [] => exact ⟨'[', _, rfl, by decide, by decide, by decide⟩
  | .arr (x :: xs) => exact ⟨'[', _, rfl, by decide, by decide, by decide⟩
  | .obj [] => exact ⟨'\x7b', _, rfl, by decide, by decide, by decide⟩
  | .obj ((k, x) :: kvs) => exact ⟨'\x7b', _, rfl, by decide, by decide, by decide⟩
  | .num n =>
    by_cases hn : n < 0
    · refine ⟨'-', decRepr n.natAbs, ?_, by decide, by decide, by decide⟩
      simp [dumpJ, intDecChars, hn]
    · obtain ⟨c, cs, hd, hlo, hhi⟩ := decRepr_head n.natAbs
      have e1 : (' ' : Char).toNat = 32 := rfl
      have e2 : ('\t' : Char).toNat = 9 := rfl
      have e3 : ('\n' : Char).toNat = 10 := rfl
      have e4 : ('\x0d' : Char).toNat = 13 := rfl
      have e5 : (']' : Char).toNat = 93 := rfl
      have e6 : ('\x7d' : Char).toNat = 125 := rfl
      refine ⟨c, cs, ?_, ?_, ?_, ?_⟩
      · simp [dumpJ, intDecChars, hn, hd]
      · simp only [isJsonWs, Bool.or_eq_false_iff, decide_eq_false_iff_not]
        exact ⟨⟨⟨char_ne_of_toNat_ne (by omega), char_ne_of_toNat_ne (by omega)⟩,
          char_ne_of_toNat_ne (by omega)⟩, char_ne_of_toNat_ne (by omega)⟩
      · exact char_ne_of_toNat_ne (by omega)
      · exact char_ne_of_toNat_ne (by omega)

theorem skipWs_dump (v : Json) (X : List Char) : skipWs (dumpJ v ++ X) = dumpJ v ++ X := by
  obtain ⟨c, cs, hd, hws, _, _⟩ := dumpJ_head v
  rw [hd, List.cons_append, skipWs_not_ws _ hws]

theorem headIs_dump_rbrack (v : Json) (X : List Char) :
    headIs (dumpJ v ++ X) ']' = false := by
  obtain ⟨c, cs, hd, _, hne, _⟩ := dumpJ_head v
  rw [hd, List.cons_append]
  simp [headIs, hne]

theorem headIs_dump_rbrace (v : Json) (X : List Char) :
    headIs (dumpJ v ++ X) '\x7d' = false := by
  obtain ⟨c, cs, hd, _, _, hne⟩ := dumpJ_head v
  rw [hd, List.cons_append]
  simp [headIs, hne]

theorem numBoundary_dumpItems (vs : List Json) (rest : List Char) :
    numBoundary (dumpItems vs ++ ']' :: rest) = true := by
  cases vs with
  | nil => rfl
  | cons v vs => rfl

theorem numBoundary_dumpFields (kvs : List (String × Json)) (rest : List Char) :
    numBoundary (dumpFields kvs ++ '\x7d' :: rest) = true := by
  cases kvs with
  | nil => rfl
  | cons kv kvs =>
    obtain ⟨k, v⟩ := kv
    rfl

/-! ## Dictionary construction -/

theorem assocSet_fresh (acc : PyDict) (k : String) (v : Json)
    (h : ∀ kv ∈ acc, kv.1 ≠ k) : assocSet acc k v = acc ++ [(k, v)] := by
  induction acc with
  | nil => rfl
  | cons kv rest ih =>
    obtain ⟨k', v'⟩ := kv
    have hne : k' ≠ k := h (k', v') (List.mem_cons_self _ _)
    simp only [assocSet, if_neg hne, List.cons_append, List.cons.injEq, true_and]
    exact ih (fun x hx => h x (List.mem_cons_of_mem _ hx))

theorem keysFresh_split (xs ys : List String) (y : String)
    (h : keysFresh (xs ++ y :: ys) = true) : ∀ x ∈ xs, x ≠ y := by
  induction xs with
  | nil => intro x hx; exact absurd hx (List.not_mem_nil x)
  | cons a xs ih =>
    simp only [List.cons_append, keysFresh, Bool.and_eq_true, Bool.not_eq_true'] at h
    intro x hx
    rcases List.mem_cons.mp hx with rfl | hx'
    · intro he
      subst he
      have hm : x ∈ xs ++ x :: ys := List.mem_append_right xs (List.mem_cons_self x ys)
      have hc : (xs ++ x :: ys).contains x = true := List.elem_iff.mpr hm
      simp only [List.append_eq] at h
      rw [h.1] at hc
      exact Bool.false_ne_true hc
    · exact ih (by
        have h2 := h.2
        simpa using h2) x hx'

theorem dictOfPairs_fresh :
    ∀ kvs acc, keysFresh (acc.map Prod.fst ++ kvs.map Prod.fst) = true →
      dictOfPairs acc kvs = acc ++ kvs := by
  intro kvs
  induction kvs with
  | nil =>
    intro acc _
    simp [dictOfPairs]
  | cons kv rest ih =>
    intro acc h
    obtain ⟨k, v⟩ := kv
    simp only [List.map_cons] at h
    have hk : ∀ x ∈ acc, x.1 ≠ k := by
      intro x hx
      exact keysFresh_split _ _ _ h x.1 (List.mem_map_of_mem Prod.fst hx)
    have hstep : assocSet acc k v = acc ++ [(k, v)] := assocSet_fresh acc k v hk
    have hrearr : (acc ++ [(k, v)]).map Prod.fst ++ rest.map Prod.fst =
        acc.map Prod.fst ++ k :: rest.map Prod.fst := by
      simp
    simp only [dictOfPairs, List.foldl_cons] at ih ⊢
    rw [hstep, ih (acc ++ [(k, v)]) (by rw [hrearr]; exact h)]
    simp

theorem parseObjItems_ws (fuel : Nat) (acc : PyDict) (cs : List Char) :
    parseObjItems fuel acc (' ' :: cs) = parseObjItems fuel acc cs := by
  cases fuel <;> rfl

/-! ## One-step unfoldings of `parseVal` -/

theorem pv_quote (fuel : Nat) (X : List Char) :
    parseVal (fuel + 1) ('"' :: X) =
      (match parseStringBody fuel [] X with
       | some (s, r) => some (.str s, r)
       | none => none) := rfl

theorem pv_lbrack (fuel : Nat) (X : List Char) :
    parseVal (fuel + 1) ('[' :: X) =
      (if headIs (skipWs X) ']' then some (.arr [], (skipWs X).drop 1)
       else
         match parseArrItems fuel (skipWs X) with
         | some (vs, r) => some (.arr vs, r)
         | none => none) := rfl

theorem pv_lbrace (fuel : Nat) (X : List Char) :
    parseVal (fuel + 1) ('\x7b' :: X) =
      (if headIs (skipWs X) '\x7d' then some (.obj [], (skipWs X).drop 1)
       else
         match parseObjItems fuel [] (skipWs X) with
         | some (kvs, r) => some (.obj kvs, r)
         | none => none) := rfl

theorem pv_minus (fuel : Nat) (X : List Char) :
    parseVal (fuel + 1) ('-' :: X) =
      (match parseNum X with
       | some (m, r) => some (.num (-(m : Int)), r)
       | none => none) := rfl

theorem pv_default (fuel : Nat) (c : Char) (X : List Char) (hws : isJsonWs c = false)
    (h1 : ¬(c = 'n')) (h2 : ¬(c = 't')) (h3 : ¬(c = 'f')) (h4 : ¬(c = '"'))
    (h5 : ¬(c = '[')) (h6 : ¬(c = '\x7b')) (h7 : ¬(c = '-')) :
    parseVal (fuel + 1) (c :: X) =
      (match parseNum (c :: X) with
       | some (m, r) => some (.num (m : Int), r)
       | none => none) := by
  simp only [parseVal]
  rw [skipWs_not_ws _ hws]
  simp only [if_neg h1, if_neg h2, if_neg h3, if_neg h4, if_neg h5, if_neg h6, if_neg h7]

/-! ## The serializer/parser round-trip -/

theorem sizeJ_pos (v : Json) : 1 ≤ sizeJ v := by
  match v with
  | .null | .bool _ | .num _ => simp [sizeJ]
  | .str s => simp [sizeJ]
  | .arr xs => simp [sizeJ]
  | .obj kvs => simp [sizeJ]

theorem sizeL_pos (vs : List Json) : 1 ≤ sizeL vs := by
  cases vs <;> simp [sizeL] <;> omega

theorem sizeO_pos (kvs : List (String × Json)) : 1 ≤ sizeO kvs := by
  match kvs with
  | [] => simp [sizeO]
  | (k, v) :: kvs => simp [sizeO]; omega

theorem string_eta (s : String) : (⟨s.data⟩ : String) = s := rfl

theorem parse_complete : ∀ fuel : Nat,
    (∀ v rest, wfJ v = true → sizeJ v ≤ fuel → numBoundary rest = true →
      parseVal fuel (dumpJ v ++ rest) = some (v, rest)) ∧
    (∀ vs rest, vs ≠ [] → wfL vs = true → sizeL vs ≤ fuel →
      parseArrItems fuel (dumpItemsFirst vs ++ ']' :: rest) = some (vs, rest)) ∧
    (∀ kvs acc rest, kvs ≠ [] → wfO kvs = true → sizeO kvs ≤ fuel →
      parseObjItems fuel acc (dumpFieldsFirst kvs ++ '\x7d' :: rest) =
        some (dictOfPairs acc kvs, rest)) := by
  intro fuel
  induction fuel with
  | zero =>
    refine ⟨?_, ?_, ?_⟩
    · intro v _ _ hsz _
      exact absurd hsz (by have := sizeJ_pos v; omega)
    · intro vs _ _ _ hsz
      exact absurd hsz (by have := sizeL_pos vs; omega)
    · intro kvs _ _ _ _ hsz
      exact absurd hsz (by have := sizeO_pos kvs; omega)
  | succ fuel ih =>
    obtain ⟨ihV, ihA, ihO⟩ := ih
    refine ⟨?_, ?_, ?_⟩
    · intro v rest hwf hsz hb
      match v with
      | .null => rfl
      | .bool true => rfl
      | .bool false => rfl
      | .num n =>
        rcases lt_or_ge n 0 with hn | hn
        · have hd : dumpJ (.num n) = '-' :: decRepr n.natAbs := by
            simp [dumpJ, intDecChars, hn]
          rw [hd, List.cons_append, pv_minus, parseNum_decRepr _ _ hb]
          dsimp only
          have hval : (-(n.natAbs : Int)) = n := by omega
          rw [hval]
        · have hd : dumpJ (.num n) = decRepr n.natAbs := by
            simp [dumpJ, intDecChars, not_lt.mpr hn]
          obtain ⟨c, cs, hcons, hlo, hhi⟩ := decRepr_head n.natAbs
          have e1 : ('n' : Char).toNat = 110 := rfl
          have e2 : ('t' : Char).toNat = 116 := rfl
          have e3 : ('f' : Char).toNat = 102 := rfl
          have e4 : ('"' : Char).toNat = 34 := rfl
          have e5 : ('[' : Char).toNat = 91 := rfl
          have e6 : ('\x7b' : Char).toNat = 123 := rfl
          have e7 : ('-' : Char).toNat = 45 := rfl
          have ew1 : (' ' : Char).toNat = 32 := rfl
          have ew2 : ('\t' : Char).toNat = 9 := rfl
          have ew3 : ('\n' : Char).toNat = 10 := rfl
          have ew4 : ('\x0d' : Char).toNat = 13 := rfl
          have hws : isJsonWs c = false := by
            simp only [isJsonWs, Bool.or_eq_false_iff, decide_eq_false_iff_not]
            exact ⟨⟨⟨char_ne_of_toNat_ne (by omega), char_ne_of_toNat_ne (by omega)⟩,
              char_ne_of_toNat_ne (by omega)⟩, char_ne_of_toNat_ne (by omega)⟩
          rw [hd, hcons, List.cons_append,
            pv_default fuel c (cs ++ rest) hws
              (char_ne_of_toNat_ne (by omega)) (char_ne_of_toNat_ne (by omega))
              (char_ne_of_toNat_ne (by omega)) (char_ne_of_toNat_ne (by omega))
              (char_ne_of_toNat_ne (by omega)) (char_ne_of_toNat_ne (by omega))
              (char_ne_of_toNat_ne (by omega)),
            ← List.cons_append, ← hcons, parseNum_decRepr _ _ hb]
          dsimp only
          have hval : ((n.natAbs : Int)) = n := by omega
          rw [hval]
      | .str s =>
        have hd : dumpJ (.str s) ++ rest = '"' :: (escapeList s.data ++ '"' :: rest) := by
          simp [dumpJ, dumpStrChars, List.append_assoc]
        have hlen : s.data.length < fuel := by
          simp only [sizeJ] at hsz
          omega
        rw [hd, pv_quote, parseStringBody_complete s.data fuel [] rest hlen]
        simp [string_eta]
      | .arr [] => rfl
      | .arr (v :: vs) =>
        have hd : dumpJ (.arr (v :: vs)) ++ rest =
            '[' :: (dumpItemsFirst (v :: vs) ++ ']' :: rest) := by
          simp [dumpJ, dumpItemsFirst, List.append_assoc]
        have hfix : dumpItemsFirst (v :: vs) ++ ']' :: rest =
            dumpJ v ++ (dumpItems vs ++ ']' :: rest) := by
          simp [dumpItemsFirst, List.append_assoc]
        rw [hd, pv_lbrack]
        rw [hfix, skipWs_dump v _, headIs_dump_rbrack v _, ← hfix]
        simp only [Bool.false_eq_true, if_false]
        have hwf2 : wfL (v :: vs) = true := by simpa [wfJ] using hwf
        have hsz2 : sizeL (v :: vs) ≤ fuel := by simp only [sizeJ] at hsz; omega
        rw [ihA (v :: vs) rest (by simp) hwf2 hsz2]
      | .obj [] => rfl
      | .obj (kv :: kvs) =>
        obtain ⟨k, v⟩ := kv
        have hd : dumpJ (.obj ((k, v) :: kvs)) ++ rest =
            '\x7b' :: (dumpFieldsFirst ((k, v) :: kvs) ++ '\x7d' :: rest) := by
          simp [dumpJ, dumpFieldsFirst, List.append_assoc]
        have hfix : dumpFieldsFirst ((k, v) :: kvs) ++ '\x7d' :: rest =
            '"' :: (escapeList k.data ++ '"' :: (':' :: ' ' :: (dumpJ v ++ (dumpFields kvs ++ '\x7d' :: rest)))) := by
          simp [dumpFieldsFirst, dumpStrChars, List.append_assoc]
        rw [hd, pv_lbrace]
        have hskip : skipWs (dumpFieldsFirst ((k, v) :: kvs) ++ '\x7d' :: rest) =
            dumpFieldsFirst ((k, v) :: kvs) ++ '\x7d' :: rest := by
          rw [hfix, skipWs_not_ws _ (by decide)]
        have hhead : headIs (dumpFieldsFirst ((k, v) :: kvs) ++ '\x7d' :: rest) '\x7d' = false := by
          rw [hfix]
          rfl
        rw [hskip, hhead]
        simp only [Bool.false_eq_true, if_false]
        have hwf2 : keysFresh (((k, v) :: kvs).map Prod.fst) = true ∧ wfO ((k, v) :: kvs) = true := by
          simpa [wfJ, Bool.and_eq_true] using hwf
        have hsz2 : sizeO ((k, v) :: kvs) ≤ fuel := by simp only [sizeJ] at hsz; omega
        rw [ihO ((k, v) :: kvs) [] rest (by simp) hwf2.2 hsz2]
        rw [dictOfPairs_fresh _ [] (by simpa using hwf2.1)]
        simp
    · intro vs rest hne hwf hsz
      match vs with
      | v :: vs' =>
        have h1 : dumpItemsFirst (v :: vs') ++ ']' :: rest =
            dumpJ v ++ (dumpItems vs' ++ ']' :: rest) := by
          simp [dumpItemsFirst, List.append_assoc]
        have hwf2 : wfJ v = true ∧ wfL vs' = true := by
          simpa [wfL, Bool.and_eq_true] using hwf
        have hszv : sizeJ v ≤ fuel := by simp only [sizeL] at hsz; omega
        rw [h1]
        simp only [parseArrItems]
        rw [ihV v _ hwf2.1 hszv (numBoundary_dumpItems vs' rest)]
        dsimp only
        match vs' with
        | [] =>
          have h2 : dumpItems ([] : List Json) ++ ']' :: rest = ']' :: rest := by
            simp [dumpItems]
          rw [h2, skipWs_not_ws _ (by decide)]
          rfl
        | v' :: vs'' =>
          have h2 : dumpItems (v' :: vs'') ++ ']' :: rest =
              ',' :: ' ' :: (dumpJ v' ++ (dumpItems vs'' ++ ']' :: rest)) := by
            simp [dumpItems, List.append_assoc]
          rw [h2, skipWs_not_ws _ (by decide)]
          show (match parseArrItems fuel (skipWs (' ' :: (dumpJ v' ++ (dumpItems vs'' ++ ']' :: rest)))) with
            | some (vs, r) => some (v :: vs, r)
            | none => none) = some (v :: v' :: vs'', rest)
          have h3 : skipWs (' ' :: (dumpJ v' ++ (dumpItems vs'' ++ ']' :: rest))) =
              dumpItemsFirst (v' :: vs'') ++ ']' :: rest := by
            rw [skipWs_cons]
            simp only [if_pos (by decide : isJsonWs ' ' = true)]
            rw [skipWs_dump v' _]
            simp [dumpItemsFirst, List.append_assoc]
          have hwf3 : wfL (v' :: vs'') = true := hwf2.2
          have hsz3 : sizeL (v' :: vs'') ≤ fuel := by simp only [sizeL] at hsz ⊢; omega
          rw [h3, ihA (v' :: vs'') rest (by simp) hwf3 hsz3]
    · intro kvs acc rest hne hwf hsz
      match kvs with
      | (k, v) :: kvs' =>
        have h1 : dumpFieldsFirst ((k, v) :: kvs') ++ '\x7d' :: rest =
            '"' :: (escapeList k.data ++ '"' :: (':' :: ' ' :: (dumpJ v ++ (dumpFields kvs' ++ '\x7d' :: rest)))) := by
          simp [dumpFieldsFirst, dumpStrChars, List.append_assoc]
        have hwf2 : wfJ v = true ∧ wfO kvs' = true := by
          simpa [wfO, Bool.and_eq_true] using hwf
        have hszk : k.data.length < fuel := by simp only [sizeO] at hsz; omega
        have hszv : sizeJ v ≤ fuel := by simp only [sizeO] at hsz; omega
        rw [h1]
        simp only [parseObjItems]
        rw [skipWs_not_ws _ (by decide), expectChar_hit]
        dsimp only
        rw [parseStringBody_complete k.data fuel [] _ hszk]
        dsimp only
        simp only [List.reverse_nil, List.nil_append, string_eta]
        rw [skipWs_not_ws _ (by decide), expectChar_hit]
        dsimp only
        have h3 : skipWs (' ' :: (dumpJ v ++ (dumpFields kvs' ++ '\x7d' :: rest))) =
            dumpJ v ++ (dumpFields kvs' ++ '\x7d' :: rest) := by
          rw [skipWs_cons]
          simp only [if_pos (by decide : isJsonWs ' ' = true)]
          exact skipWs_dump v _
        rw [h3, ihV v _ hwf2.1 hszv (numBoundary_dumpFields kvs' rest)]
        dsimp only
        match kvs' with
        | [] =>
          have h5 : dumpFields ([] : List (String × Json)) ++ '\x7d' :: rest = '\x7d' :: rest := by
            simp [dumpFields]
          rw [h5, skipWs_not_ws _ (by decide)]
          rfl
        | (k', v') :: kvs'' =>
          have h5 : dumpFields ((k', v') :: kvs'') ++ '\x7d' :: rest =
              ',' :: ' ' :: (dumpFieldsFirst ((k', v') :: kvs'') ++ '\x7d' :: rest) := by
            simp [dumpFields, dumpFieldsFirst, List.append_assoc]
          rw [h5, skipWs_not_ws _ (by decide)]
          show parseObjItems fuel (assocSet acc k v)
              (' ' :: (dumpFieldsFirst ((k', v') :: kvs'') ++ '\x7d' :: rest)) =
            some (dictOfPairs acc ((k, v) :: (k', v') :: kvs''), rest)
          have hwf3 : wfO ((k', v') :: kvs'') = true := hwf2.2
          have hsz3 : sizeO ((k', v') :: kvs'') ≤ fuel := by simp only [sizeO] at hsz ⊢; omega
          rw [parseObjItems_ws, ihO ((k', v') :: kvs'') (assocSet acc k v) rest (by simp) hwf3 hsz3]
          rfl


/-! ## Fuel adequacy: the budget never exceeds twice the text length -/

theorem escapeChar_len (c : Char) : 1 ≤ (escapeChar c).length := by
  rw [escapeChar]
  split_ifs <;> first
    | simp
    | (rw [uEscape]; split_ifs <;> simp [hex4])

theorem escapeList_len (cs : List Char) : cs.length ≤ (escapeList cs).length := by
  induction cs with
  | nil => simp [escapeList]
  | cons c t ih =>
    have := escapeChar_len c
    simp only [escapeList, List.length_cons, List.length_append]
    omega

theorem decRepr_len (n : Nat) : 1 ≤ (decRepr n).length := by
  obtain ⟨c, cs, h, _, _⟩ := decRepr_head n
  simp [h]

theorem dumpNum_len (n : Int) : 1 ≤ (intDecChars n).length := by
  rw [intDecChars]
  split_ifs
  · simp
  · exact decRepr_len n.natAbs

theorem size_le_dump : ∀ bound : Nat,
    (∀ v, sizeJ v ≤ bound → sizeJ v ≤ 2 * (dumpJ v).length) ∧
    (∀ vs, sizeL vs ≤ bound → sizeL vs ≤ 2 * (dumpItems vs).length + 2) ∧
    (∀ kvs, sizeO kvs ≤ bound → sizeO kvs ≤ 2 * (dumpFields kvs).length + 2) := by
  intro bound
  induction bound with
  | zero =>
    refine ⟨?_, ?_, ?_⟩
    · intro v hsz
      exact absurd hsz (by have := sizeJ_pos v; omega)
    · intro vs hsz
      exact absurd hsz (by have := sizeL_pos vs; omega)
    · intro kvs hsz
      exact absurd hsz (by have := sizeO_pos kvs; omega)
  | succ bound ih =>
    obtain ⟨ihV, ihA, ihO⟩ := ih
    refine ⟨?_, ?_, ?_⟩
    · intro v hsz
      match v with
      | .null => simp [sizeJ, dumpJ]
      | .bool true => simp [sizeJ, dumpJ]
      | .bool false => simp [sizeJ, dumpJ]
      | .num n =>
        have := dumpNum_len n
        simp only [sizeJ, dumpJ]
        omega
      | .str s =>
        have := escapeList_len s.data
        simp only [sizeJ, dumpJ, dumpStrChars, List.length_cons, List.length_append]
        omega
      | .arr [] => simp [sizeJ, sizeL, dumpJ]
      | .arr (x :: xs) =>
        have hhx : sizeJ x ≤ bound := by
          simp only [sizeJ, sizeL] at hsz
          have := sizeL_pos xs
          omega
        have hhxs : sizeL xs ≤ bound := by
          simp only [sizeJ, sizeL] at hsz
          have := sizeJ_pos x
          omega
        have t1 := ihV x hhx
        have t2 := ihA xs hhxs
        simp only [sizeJ, sizeL, dumpJ, List.length_cons, List.length_append, List.length_nil]
        omega
      | .obj [] => simp [sizeJ, sizeO, dumpJ]
      | .obj ((k, x) :: kvs) =>
        have hhx : sizeJ x ≤ bound := by
          simp only [sizeJ, sizeO] at hsz
          have := sizeO_pos kvs
          omega
        have hhkvs : sizeO kvs ≤ bound := by
          simp only [sizeJ, sizeO] at hsz
          have := sizeJ_pos x
          omega
        have t1 := ihV x hhx
        have t2 := ihO kvs hhkvs
        have t3 := escapeList_len k.data
        simp only [sizeJ, sizeO, dumpJ, dumpStrChars, List.length_cons, List.length_append,
          List.length_nil]
        omega
    · intro vs hsz
      match vs with
      | [] => simp [sizeL, dumpItems]
      | x :: xs =>
        have hx : sizeJ x ≤ bound := by
          simp only [sizeL] at hsz
          have := sizeL_pos xs
          omega
        have hxs : sizeL xs ≤ bound := by
          simp only [sizeL] at hsz
          have := sizeJ_pos x
          omega
        have t1 := ihV x hx
        have t2 := ihA xs hxs
        simp only [sizeL, dumpItems, List.length_cons, List.length_append]
        omega
    · intro kvs hsz
      match kvs with
      | [] => simp [sizeO, dumpFields]
      | (k, x) :: kvs' =>
        have hx : sizeJ x ≤ bound := by
          simp only [sizeO] at hsz
          have := sizeO_pos kvs'
          omega
        have hkvs : sizeO kvs' ≤ bound := by
          simp only [sizeO] at hsz
          have := sizeJ_pos x
          omega
        have t1 := ihV x hx
        have t2 := ihO kvs' hkvs
        have t3 := escapeList_len k.data
        simp only [sizeO, dumpFields, dumpStrChars, List.length_cons, List.length_append]
        omega

theorem sizeJ_le_dump (v : Json) : sizeJ v ≤ 2 * (dumpJ v).length :=
  (size_le_dump (sizeJ v)).1 v (le_refl _)

/-- `json.loads` inverts `json.dumps` on well-formed values. -/
theorem jsonLoads_dumps (v : Json) (h : wfJ v = true) : jsonLoads (jsonDumps v) = some v := by
  have hfuel : sizeJ v ≤ 2 * (dumpJ v).length + 4 := by
    have := sizeJ_le_dump v
    omega
  have hrt := (parse_complete (2 * (dumpJ v).length + 4)).1 v [] h hfuel rfl
  rw [List.append_nil] at hrt
  rw [jsonLoads]
  have hdata : (jsonDumps v).data = dumpJ v := rfl
  rw [hdata, hrt]
  rfl

/-! ## Serialized text is printable ASCII -/

theorem hexDigitChar_range (d : Nat) (h : d < 16) :
    48 ≤ (hexDigitChar d).toNat ∧ (hexDigitChar d).toNat ≤ 102 := by
  interval_cases d <;> decide

theorem hex4_range (n : Nat) : ∀ x ∈ hex4 n, 48 ≤ x.toNat ∧ x.toNat ≤ 102 := by
  intro x hx
  simp only [hex4, List.mem_cons, List.not_mem_nil, or_false] at hx
  rcases hx with rfl | rfl | rfl | rfl <;>
    exact hexDigitChar_range _ (Nat.mod_lt _ (by omega))

theorem uEscape_range (n : Nat) : ∀ x ∈ uEscape n, 0x20 ≤ x.toNat ∧ x.toNat ≤ 0x7e := by
  intro x hx
  rw [uEscape] at hx
  split_ifs at hx
  · simp only [List.mem_cons] at hx
    rcases hx with rfl | rfl | h
    · exact ⟨by decide, by decide⟩
    · exact ⟨by decide, by decide⟩
    · have := hex4_range _ x h
      omega
  · simp only [List.mem_append, List.mem_cons] at hx
    rcases hx with (rfl | rfl | h) | (rfl | rfl | h)
    · exact ⟨by decide, by decide⟩
    · exact ⟨by decide, by decide⟩
    · have := hex4_range _ x h
      omega
    · exact ⟨by decide, by decide⟩
    · exact ⟨by decide, by decide⟩
    · have := hex4_range _ x h
      omega

theorem escapeChar_range (c : Char) :
    ∀ x ∈ escapeChar c, 0x20 ≤ x.toNat ∧ x.toNat ≤ 0x7e := by
  intro x hx
  rw [escapeChar] at hx
  split_ifs at hx with h1 h2 h3 h4 h5 h6 h7 h8
  iterate 7
    first
    | (simp only [List.mem_cons, List.not_mem_nil, or_false] at hx
       rcases hx with rfl | rfl <;> exact ⟨by decide, by decide⟩)
  · exact uEscape_range c.toNat x hx
  · simp only [List.mem_singleton] at hx
    subst hx
    simp only [Bool.or_eq_true, decide_eq_true_eq, not_or, not_lt] at h8
    exact ⟨h8.1, h8.2⟩

theorem escapeList_range (cs : List Char) :
    ∀ x ∈ escapeList cs, 0x20 ≤ x.toNat ∧ x.toNat ≤ 0x7e := by
  induction cs with
  | nil => intro x hx; exact absurd hx (List.not_mem_nil x)
  | cons c t ih =>
    intro x hx
    simp only [escapeList, List.mem_append] at hx
    rcases hx with h | h
    · exact escapeChar_range c x h
    · exact ih x h

theorem intDecChars_range (n : Int) :
    ∀ x ∈ intDecChars n, 0x20 ≤ x.toNat ∧ x.toNat ≤ 0x7e := by
  intro x hx
  rw [intDecChars] at hx
  obtain ⟨_, hdig, _⟩ := decRepr_facts n.natAbs
  split_ifs at hx
  · simp only [List.mem_cons] at hx
    rcases hx with rfl | h
    · exact ⟨by decide, by decide⟩
    · have := hdig x h
      omega
  · have := hdig x hx
    omega

/-- Every character of a serialized value is printable ASCII (so no
line breaks and no whitespace other than the separator spaces). -/
theorem dump_printable : ∀ bound : Nat,
    (∀ v, sizeJ v ≤ bound → ∀ x ∈ dumpJ v, 0x20 ≤ x.toNat ∧ x.toNat ≤ 0x7e) ∧
    (∀ vs, sizeL vs ≤ bound → ∀ x ∈ dumpItems vs, 0x20 ≤ x.toNat ∧ x.toNat ≤ 0x7e) ∧
    (∀ kvs, sizeO kvs ≤ bound → ∀ x ∈ dumpFields kvs, 0x20 ≤ x.toNat ∧ x.toNat ≤ 0x7e) := by
  intro bound
  induction bound with
  | zero =>
    refine ⟨?_, ?_, ?_⟩
    · intro v hsz
      exact absurd hsz (by have := sizeJ_pos v; omega)
    · intro vs hsz
      exact absurd hsz (by have := sizeL_pos vs; omega)
    · intro kvs hsz
      exact absurd hsz (by have := sizeO_pos kvs; omega)
  | succ bound ih =>
    obtain ⟨ihV, ihA, ihO⟩ := ih
    refine ⟨?_, ?_, ?_⟩
    · intro v hsz x hx
      match v with
      | .null =>
        fin_cases hx <;> exact ⟨by decide, by decide⟩
      | .bool true =>
        fin_cases hx <;> exact ⟨by decide, by decide⟩
      | .bool false =>
        fin_cases hx <;> exact ⟨by decide, by decide⟩
      | .num n => exact intDecChars_range n x hx
      | .str s =>
        rw [show dumpJ (.str s) = '"' :: (escapeList s.data ++ ['"']) from rfl] at hx
        rcases List.mem_cons.mp hx with rfl | hx2
        · exact ⟨by decide, by decide⟩
        rcases List.mem_append.mp hx2 with hx3 | hx3
        · exact escapeList_range s.data x hx3
        · rw [List.mem_singleton.mp hx3]
          exact ⟨by decide, by decide⟩
      | .arr [] =>
        fin_cases hx <;> exact ⟨by decide, by decide⟩
      | .arr (y :: ys) =>
        have hy : sizeJ y ≤ bound := by
          simp only [sizeJ, sizeL] at hsz
          have := sizeL_pos ys
          omega
        have hys : sizeL ys ≤ bound := by
          simp only [sizeJ, sizeL] at hsz
          have := sizeJ_pos y
          omega
        rw [show dumpJ (.arr (y :: ys)) = '[' :: ((dumpJ y ++ dumpItems ys) ++ [']']) from rfl] at hx
        rcases List.mem_cons.mp hx with rfl | hx2
        · exact ⟨by decide, by decide⟩
        rcases List.mem_append.mp hx2 with hx3 | hx3
        · rcases List.mem_append.mp hx3 with hx4 | hx4
          · exact ihV y hy x hx4
          · exact ihA ys hys x hx4
        · rw [List.mem_singleton.mp hx3]
          exact ⟨by decide, by decide⟩
      | .obj [] =>
        fin_cases hx <;> exact ⟨by decide, by decide⟩
      | .obj ((k, y) :: kvs) =>
        have hy : sizeJ y ≤ bound := by
          simp only [sizeJ, sizeO] at hsz
          have := sizeO_pos kvs
          omega
        have hkvs : sizeO kvs ≤ bound := by
          simp only [sizeJ, sizeO] at hsz
          have := sizeJ_pos y
          omega
        rw [show dumpJ (.obj ((k, y) :: kvs)) =
          '\x7b' :: ((dumpStrChars k ++ ':' :: ' ' :: dumpJ y ++ dumpFields kvs) ++ ['\x7d'])
          from rfl] at hx
        rcases List.mem_cons.mp hx with rfl | hx2
        · exact ⟨by decide, by decide⟩
        rcases List.mem_append.mp hx2 with hx3 | hx3
        · rcases List.mem_append.mp hx3 with hx4 | hx4
          · rcases List.mem_append.mp hx4 with hx5 | hx5
            · rw [show dumpStrChars k = '"' :: (escapeList k.data ++ ['"']) from rfl] at hx5
              rcases List.mem_cons.mp hx5 with rfl | hx6
              · exact ⟨by decide, by decide⟩
              rcases List.mem_append.mp hx6 with hx7 | hx7
              · exact escapeList_range k.data x hx7
              · rw [List.mem_singleton.mp hx7]
                exact ⟨by decide, by decide⟩
            · rcases List.mem_cons.mp hx5 with rfl | hx6
              · exact ⟨by decide, by decide⟩
              rcases List.mem_cons.mp hx6 with rfl | hx7
              · exact ⟨by decide, by decide⟩
              · exact ihV y hy x hx7
          · exact ihO kvs hkvs x hx4
        · rw [List.mem_singleton.mp hx3]
          exact ⟨by decide, by decide⟩
    · intro vs hsz x hx
      match vs with
      | [] => exact absurd hx (by simp [dumpItems])
      | y :: ys =>
        have hy : sizeJ y ≤ bound := by
          simp only [sizeL] at hsz
          have := sizeL_pos ys
          omega
        have hys : sizeL ys ≤ bound := by
          simp only [sizeL] at hsz
          have := sizeJ_pos y
          omega
        rw [show dumpItems (y :: ys) = ',' :: ' ' :: (dumpJ y ++ dumpItems ys) from rfl] at hx
        rcases List.mem_cons.mp hx with rfl | hx2
        · exact ⟨by decide, by decide⟩
        rcases List.mem_cons.mp hx2 with rfl | hx3
        · exact ⟨by decide, by decide⟩
        rcases List.mem_append.mp hx3 with hx4 | hx4
        · exact ihV y hy x hx4
        · exact ihA ys hys x hx4
    · intro kvs hsz x hx
      match kvs with
      | [] => exact absurd hx (by simp [dumpFields])
      | (k, y) :: kvs' =>
        have hy : sizeJ y ≤ bound := by
          simp only [sizeO] at hsz
          have := sizeO_pos kvs'
          omega
        have hkvs : sizeO kvs' ≤ bound := by
          simp only [sizeO] at hsz
          have := sizeJ_pos y
          omega
        rw [show dumpFields ((k, y) :: kvs') =
          ',' :: ' ' :: ((dumpStrChars k ++ ':' :: ' ' :: dumpJ y) ++ dumpFields kvs')
          from rfl] at hx
        rcases List.mem_cons.mp hx with rfl | hx2
        · exact ⟨by decide, by decide⟩
        rcases List.mem_cons.mp hx2 with rfl | hx3
        · exact ⟨by decide, by decide⟩
        rcases List.mem_append.mp hx3 with hx4 | hx4
        · rcases List.mem_append.mp hx4 with hx5 | hx5
          · rw [show dumpStrChars k = '"' :: (escapeList k.data ++ ['"']) from rfl] at hx5
            rcases List.mem_cons.mp hx5 with rfl | hx6
            · exact ⟨by decide, by decide⟩
            rcases List.mem_append.mp hx6 with hx7 | hx7
            · exact escapeList_range k.data x hx7
            · rw [List.mem_singleton.mp hx7]
              exact ⟨by decide, by decide⟩
          · rcases List.mem_cons.mp hx5 with rfl | hx6
            · exact ⟨by decide, by decide⟩
            rcases List.mem_cons.mp hx6 with rfl | hx7
            · exact ⟨by decide, by decide⟩
            · exact ihV y hy x hx7
        · exact ihO kvs' hkvs x hx4

theorem dumpJ_printable (v : Json) : ∀ x ∈ dumpJ v, 0x20 ≤ x.toNat ∧ x.toNat ≤ 0x7e :=
  (dump_printable (sizeJ v)).1 v (le_refl _)

theorem splitlinesAux_fuel : ∀ f1 : Nat, ∀ cs acc (f2 : Nat), cs.length < f1 → cs.length < f2 →
    splitlinesAux f1 cs acc = splitlinesAux f2 cs acc := by
  intro f1
  induction f1 with
  | zero =>
    intro cs acc f2 h1 _
    exact absurd h1 (by omega)
  | succ f1 ih =>
    intro cs acc f2 h1 h2
    match cs, f2, h2 with
    | [], f2 + 1, _ => rfl
    | c :: rest, f2 + 1, hl2 =>
      have hlen : rest.length < f1 ∧ rest.length < f2 := by
        simp only [List.length_cons] at h1 hl2
        omega
      simp only [splitlinesAux]
      by_cases hc : c = '\x0d'
      · rw [if_pos hc, if_pos hc]
        by_cases hh : headIs rest '\n' = true
        · rw [if_pos hh, if_pos hh,
            ih (rest.drop 1) [] f2 (by have := List.length_drop 1 rest; omega)
              (by have := List.length_drop 1 rest; omega)]
        · rw [if_neg hh, if_neg hh, ih rest [] f2 hlen.1 hlen.2]
      · rw [if_neg hc, if_neg hc]
        by_cases hb : isLineBreakChar c = true
        · rw [if_pos hb, if_pos hb, ih rest [] f2 hlen.1 hlen.2]
        · rw [if_neg hb, if_neg hb, ih rest (c :: acc) f2 hlen.1 hlen.2]

theorem notBreak_ne_cr {c : Char} (h : isLineBreakChar c = false) : c ≠ '\x0d' := by
  intro he
  subst he
  exact absurd h (by decide)

theorem splitlinesAux_pre : ∀ pre : List Char, (∀ x ∈ pre, isLineBreakChar x = false) →
    ∀ tail acc fuel, (pre ++ '\n' :: tail).length < fuel →
      splitlinesAux fuel (pre ++ '\n' :: tail) acc =
        (acc.reverse ++ pre) :: splitlines tail := by
  intro pre
  induction pre with
  | nil =>
    intro _ tail acc fuel hf
    match fuel, hf with
    | fuel + 1, hf2 =>
      simp only [List.nil_append, splitlinesAux, List.append_nil]
      rw [if_neg (by decide), if_pos (by decide)]
      rw [splitlines, splitlinesAux_fuel fuel tail [] (tail.length + 1)
        (by simp at hf2; omega) (by omega)]
  | cons c p ihp =>
    intro hpre tail acc fuel hf
    match fuel, hf with
    | fuel + 1, hf2 =>
      have hcb : isLineBreakChar c = false := hpre c (List.mem_cons_self c p)
      simp only [List.cons_append, splitlinesAux]
      rw [if_neg (notBreak_ne_cr hcb), if_neg (by rw [hcb]; exact Bool.false_ne_true)]
      simp only [List.append_eq]
      rw [ihp (fun x hx => hpre x (List.mem_cons_of_mem c hx)) tail (c :: acc) fuel
        (by simp at hf2 ⊢; omega)]
      simp

theorem splitlinesAux_last : ∀ pre : List Char, (∀ x ∈ pre, isLineBreakChar x = false) →
    pre ≠ [] → ∀ acc fuel, pre.length < fuel →
      splitlinesAux fuel pre acc = [acc.reverse ++ pre] := by
  intro pre
  induction pre with
  | nil => intro _ h; exact absurd rfl h
  | cons c p ihp =>
    intro hpre _ acc fuel hf
    match fuel, hf with
    | fuel + 1, hf2 =>
      have hcb : isLineBreakChar c = false := hpre c (List.mem_cons_self c p)
      simp only [splitlinesAux]
      rw [if_neg (notBreak_ne_cr hcb), if_neg (by rw [hcb]; exact Bool.false_ne_true)]
      match p with
      | [] =>
        match fuel, hf2 with
        | fuel + 1, _ =>
          simp [splitlinesAux]
      | d :: p2 =>
        rw [ihp (fun x hx => hpre x (List.mem_cons_of_mem c hx)) (by simp) (c :: acc) fuel
          (by simp at hf2 ⊢; omega)]
        simp


theorem joinNL_data_cons2 (s t : String) (rest : List String) :
    (joinNL (s :: t :: rest)).data = s.data ++ '\n' :: (joinNL (t :: rest)).data := by
  have h1 : joinNL (s :: t :: rest) = s ++ "\n" ++ joinNL (t :: rest) := rfl
  rw [h1, String.data_append, String.data_append]
  have h2 : ("\n" : String).data = ['\n'] := rfl
  rw [h2]
  simp

theorem splitlines_joinNL : ∀ lines : List String, lines ≠ [] →
    (∀ l ∈ lines, l.data ≠ [] ∧ ∀ x ∈ l.data, isLineBreakChar x = false) →
    splitlines (joinNL lines).data = lines.map String.data := by
  intro lines
  induction lines with
  | nil => intro h _; exact absurd rfl h
  | cons s rest ih =>
    intro _ hl
    match rest with
    | [] =>
      have hs := hl s (List.mem_cons_self s [])
      have h1 : joinNL [s] = s := rfl
      rw [h1, splitlines, splitlinesAux_last s.data hs.2 hs.1 [] (s.data.length + 1) (by omega)]
      simp
    | t :: r =>
      have hs := hl s (List.mem_cons_self s (t :: r))
      rw [splitlines, joinNL_data_cons2,
        splitlinesAux_pre s.data hs.2 (joinNL (t :: r)).data []
          ((s.data ++ '\n' :: (joinNL (t :: r)).data).length + 1)
          (by omega)]
      rw [ih (by simp) (fun l hml => hl l (List.mem_cons_of_mem s hml))]
      simp

/-- A serialized value followed by a newline and more visible text is
not a single JSON document: `json.loads` rejects it. -/
theorem jsonLoads_dump_prefix_fails (v : Json) (h : wfJ v = true) (rest : List Char)
    (hne : (skipWs rest).isEmpty = false) : jsonLoads ⟨dumpJ v ++ '\n' :: rest⟩ = none := by
  rw [jsonLoads]
  have hfuel : sizeJ v ≤ 2 * ((⟨dumpJ v ++ '\n' :: rest⟩ : String).data).length + 4 := by
    have h1 := sizeJ_le_dump v
    have h2 : (⟨dumpJ v ++ '\n' :: rest⟩ : String).data = dumpJ v ++ '\n' :: rest := rfl
    rw [h2]
    simp only [List.length_append, List.length_cons]
    omega
  have hparse := (parse_complete (2 * ((⟨dumpJ v ++ '\n' :: rest⟩ : String).data).length + 4)).1
    v ('\n' :: rest) h hfuel rfl
  have h2 : (⟨dumpJ v ++ '\n' :: rest⟩ : String).data = dumpJ v ++ '\n' :: rest := rfl
  rw [h2] at hparse ⊢
  rw [hparse]
  dsimp only
  have hws : skipWs ('\n' :: rest) = skipWs rest := by
    rw [skipWs_cons]
    simp [isJsonWs]
  rw [hws]
  simp [hne]


theorem strExt {a b : String} (h : a.data = b.data) : a = b := by
  cases a
  cases b
  exact congrArg String.mk h

theorem dropWhile_cons_false {p : Char → Bool} {c : Char} (t : List Char) (h : p c = false) :
    List.dropWhile p (c :: t) = c :: t := by
  simp [List.dropWhile_cons, h]

theorem dropWhile_concat_ne {p : Char → Bool} (xs : List Char) (c : Char) (h : p c = false) :
    List.dropWhile p (xs ++ [c]) ≠ [] := by
  induction xs with
  | nil => simp [List.dropWhile_cons, h]
  | cons a t ih =>
    by_cases ha : p a = true
    · simpa [List.dropWhile_cons, ha] using ih
    · simp [List.dropWhile_cons, ha]

theorem pyStripChars_ne_nil {c : Char} (t : List Char) (hc : isPyWs c = false) :
    pyStripChars (c :: t) ≠ [] := by
  rw [pyStripChars, dropWhile_cons_false t hc]
  intro he
  rw [List.reverse_eq_nil_iff] at he
  have h1 : (c :: t).reverse = t.reverse ++ [c] := by simp
  rw [h1] at he
  exact dropWhile_concat_ne t.reverse c hc he

theorem pyStripChars_noop (a : Char) (mid : List Char) (b : Char)
    (ha : isPyWs a = false) (hb : isPyWs b = false) :
    pyStripChars (a :: (mid ++ [b])) = a :: (mid ++ [b]) := by
  rw [pyStripChars, dropWhile_cons_false _ ha]
  have h1 : (a :: (mid ++ [b])).reverse = b :: (mid.reverse ++ [a]) := by simp
  rw [h1, dropWhile_cons_false _ hb, ← h1, List.reverse_reverse]

theorem dumpObj_shape (o : PyDict) :
    ∃ mid, dumpJ (Json.obj o) = '\x7b' :: (mid ++ ['\x7d']) := by
  match o with
  | [] => exact ⟨[], rfl⟩
  | (k, v) :: kvs => exact ⟨dumpStrChars k ++ ':' :: ' ' :: dumpJ v ++ dumpFields kvs, rfl⟩

theorem dumpArr_shape (xs : List Json) :
    ∃ mid, dumpJ (Json.arr xs) = '[' :: (mid ++ [']']) := by
  match xs with
  | [] => exact ⟨[], rfl⟩
  | v :: vs => exact ⟨dumpJ v ++ dumpItems vs, rfl⟩

theorem pyStrip_dumpObj (o : PyDict) :
    pyStripChars (dumpJ (Json.obj o)) = dumpJ (Json.obj o) := by
  obtain ⟨mid, hm⟩ := dumpObj_shape o
  rw [hm]
  exact pyStripChars_noop _ _ _ (by decide) (by decide)

theorem recordsOfItems_map (objs : List PyDict) :
    recordsOfItems (objs.map Json.obj) = objs := by
  induction objs with
  | nil => rfl
  | cons o rest ih => simp [recordsOfItems] at ih ⊢; exact ih

theorem wfL_map_obj (objs : List PyDict) (h : ∀ o ∈ objs, wfJ (Json.obj o) = true) :
    wfL (objs.map Json.obj) = true := by
  induction objs with
  | nil => rfl
  | cons o rest ih =>
    simp only [List.map_cons, wfL, Bool.and_eq_true]
    exact ⟨h o (List.mem_cons_self o rest), ih (fun x hx => h x (List.mem_cons_of_mem o hx))⟩

/-- A response body that is a JSON array of serialized mappings parses
back to exactly those mappings. -/
theorem parse_records_array (objs : List PyDict)
    (h : ∀ o ∈ objs, wfJ (Json.obj o) = true) :
    parse_records (jsonDumps (Json.arr (objs.map Json.obj))) = objs := by
  rw [parse_records]
  have hdata : (jsonDumps (Json.arr (objs.map Json.obj))).data =
      dumpJ (.arr (objs.map Json.obj)) := rfl
  obtain ⟨mid, hm⟩ := dumpArr_shape (objs.map Json.obj)
  have hstrip : pyStripChars (jsonDumps (Json.arr (objs.map Json.obj))).data =
      '[' :: (mid ++ [']']) := by
    rw [hdata, hm]
    exact pyStripChars_noop _ _ _ (by decide) (by decide)
  rw [hstrip]
  simp only [List.isEmpty_cons, Bool.false_eq_true, if_false]
  rw [jsonLoads_dumps _ (by rw [show wfJ (Json.arr (objs.map Json.obj)) = wfL (objs.map Json.obj) from rfl]; exact wfL_map_obj objs h)]
  exact recordsOfItems_map objs

end Logpull
namespace Logpull

theorem parseLines_mapped (objs : List PyDict) (h : ∀ o ∈ objs, wfJ (Json.obj o) = true) :
    ((objs.map (fun o => dumpJ (Json.obj o))).filterMap (fun lineCs =>
      let line := pyStripChars lineCs
      if line.isEmpty then none
      else
        match jsonLoads ⟨line⟩ with
        | some (.obj kvs) => some kvs
        | _ => none)) = objs := by
  induction objs with
  | nil => rfl
  | cons o rest ih =>
    rw [List.map_cons, List.filterMap_cons]
    have hwf := h o (List.mem_cons_self o rest)
    have hstep :
        (let line := pyStripChars (dumpJ (Json.obj o))
         if line.isEmpty then none
         else
           match jsonLoads ⟨line⟩ with
           | some (.obj kvs) => some kvs
           | _ => none) = some o := by
      dsimp only
      rw [pyStrip_dumpObj o]
      obtain ⟨mid, hm⟩ := dumpObj_shape o
      rw [hm, List.isEmpty_cons]
      simp only [Bool.false_eq_true, if_false]
      rw [← hm]
      have : (⟨dumpJ (Json.obj o)⟩ : String) = jsonDumps (Json.obj o) := rfl
      rw [this, jsonLoads_dumps _ hwf]
    rw [hstep, ih (fun x hx => h x (List.mem_cons_of_mem o hx))]

theorem joinNL_head_data (o2 : PyDict) (t : List PyDict) :
    ∃ X, (joinNL ((o2 :: t).map (fun o => jsonDumps (Json.obj o)))).data =
      dumpJ (Json.obj o2) ++ X := by
  match t with
  | [] =>
    refine ⟨[], ?_⟩
    rw [List.map_cons, List.map_nil, List.append_nil]
    rfl
  | o3 :: t' =>
    refine ⟨'\n' :: (joinNL ((o3 :: t').map (fun o => jsonDumps (Json.obj o)))).data, ?_⟩
    rw [List.map_cons]
    exact joinNL_data_cons2 _ _ _

theorem printable_not_break {c : Char} (h1 : 0x20 ≤ c.toNat) (h2 : c.toNat ≤ 0x7e) :
    isLineBreakChar c = false := by
  have e1 : ('\n' : Char).toNat = 10 := rfl
  have e2 : ('\x0d' : Char).toNat = 13 := rfl
  have e3 : ('\x0b' : Char).toNat = 11 := rfl
  have e4 : ('\x0c' : Char).toNat = 12 := rfl
  have e5 : ('\x1c' : Char).toNat = 28 := rfl
  have e6 : ('\x1d' : Char).toNat = 29 := rfl
  have e7 : ('\x1e' : Char).toNat = 30 := rfl
  have e8 : ('\x85' : Char).toNat = 133 := rfl
  have e9 : (' ' : Char).toNat = 8232 := rfl
  have e10 : (' ' : Char).toNat = 8233 := rfl
  simp only [isLineBreakChar, Bool.or_eq_false_iff, decide_eq_false_iff_not]
  exact ⟨⟨⟨⟨⟨⟨⟨⟨⟨char_ne_of_toNat_ne (by omega), char_ne_of_toNat_ne (by omega)⟩,
    char_ne_of_toNat_ne (by omega)⟩, char_ne_of_toNat_ne (by omega)⟩,
    char_ne_of_toNat_ne (by omega)⟩, char_ne_of_toNat_ne (by omega)⟩,
    char_ne_of_toNat_ne (by omega)⟩, char_ne_of_toNat_ne (by omega)⟩,
    char_ne_of_toNat_ne (by omega)⟩, char_ne_of_toNat_ne (by omega)⟩

theorem dumpObj_line_ok (o : PyDict) :
    (jsonDumps (Json.obj o)).data ≠ [] ∧
      ∀ x ∈ (jsonDumps (Json.obj o)).data, isLineBreakChar x = false := by
  have hdata : (jsonDumps (Json.obj o)).data = dumpJ (Json.obj o) := rfl
  rw [hdata]
  obtain ⟨mid, hm⟩ := dumpObj_shape o
  constructor
  · rw [hm]
    simp
  · intro x hx
    have := dumpJ_printable (Json.obj o) x hx
    exact printable_not_break this.1 this.2

/-- The same mappings, serialized one per line, parse back to the same
list through the newline-delimited fallback. -/
theorem parse_records_ndjson (objs : List PyDict)
    (h : ∀ o ∈ objs, wfJ (Json.obj o) = true) :
    parse_records (joinNL (objs.map (fun o => jsonDumps (Json.obj o)))) = objs := by
  match objs with
  | [] => rfl
  | [o] =>
    have hwf := h o (List.mem_cons_self o [])
    have h1 : joinNL ([o].map (fun o => jsonDumps (Json.obj o))) = jsonDumps (Json.obj o) := rfl
    rw [h1, parse_records]
    have hdata : (jsonDumps (Json.obj o)).data = dumpJ (.obj o) := rfl
    rw [hdata, pyStrip_dumpObj o]
    obtain ⟨mid, hm⟩ := dumpObj_shape o
    rw [hm, List.isEmpty_cons]
    simp only [Bool.false_eq_true, if_false]
    rw [jsonLoads_dumps _ hwf]
  | o1 :: o2 :: t =>
    have hwf1 := h o1 (List.mem_cons_self o1 (o2 :: t))
    obtain ⟨X, hX⟩ := joinNL_head_data o2 t
    have hjoin : joinNL ((o1 :: o2 :: t).map (fun o => jsonDumps (Json.obj o))) =
        ⟨dumpJ (Json.obj o1) ++ '\n' :: (dumpJ (Json.obj o2) ++ X)⟩ := by
      apply strExt
      rw [List.map_cons] at hX
      rw [List.map_cons, List.map_cons, joinNL_data_cons2, hX]
      rfl
    rw [parse_records, hjoin]
    have hdata : ((⟨dumpJ (Json.obj o1) ++ '\n' :: (dumpJ (Json.obj o2) ++ X)⟩ : String)).data =
        dumpJ (Json.obj o1) ++ '\n' :: (dumpJ (Json.obj o2) ++ X) := rfl
    rw [hdata]
    obtain ⟨mid, hm⟩ := dumpObj_shape o1
    have hstrip_ne : pyStripChars (dumpJ (Json.obj o1) ++ '\n' :: (dumpJ (Json.obj o2) ++ X)) ≠ [] := by
      rw [hm, List.cons_append]
      exact pyStripChars_ne_nil _ (by decide)
    rw [show (pyStripChars (dumpJ (Json.obj o1) ++ '\n' :: (dumpJ (Json.obj o2) ++ X))).isEmpty = false
      from by rw [List.isEmpty_eq_false]; exact hstrip_ne]
    simp only [Bool.false_eq_true, if_false]
    have hskip : (skipWs (dumpJ (Json.obj o2) ++ X)).isEmpty = false := by
      rw [skipWs_dump]
      obtain ⟨mid2, hm2⟩ := dumpObj_shape o2
      rw [hm2]
      simp
    rw [jsonLoads_dump_prefix_fails (Json.obj o1) hwf1 _ hskip]
    rw [parseLines]
    have hback : ((⟨dumpJ (Json.obj o1) ++ '\n' :: (dumpJ (Json.obj o2) ++ X)⟩ : String)).data =
        (joinNL ((o1 :: o2 :: t).map (fun o => jsonDumps (Json.obj o)))).data := by
      rw [hjoin]
    rw [hback]
    rw [splitlines_joinNL _ (by simp)
      (fun l hml => by
        obtain ⟨o, _, rfl⟩ := List.mem_map.mp hml
        exact dumpObj_line_ok o)]
    rw [List.map_map]
    have hcomp : (String.data ∘ fun o => jsonDumps (Json.obj o)) =
        (fun o => dumpJ (Json.obj o)) := rfl
    rw [hcomp]
    exact parseLines_mapped (o1 :: o2 :: t) h


end Logpull

namespace Logpull

/-- With `--raw` off, the post-fetch phase is the record/filter pipeline. -/
theorem mainAfterFetch_notraw (args : Args) (payload : String) (h : args.raw = false) :
    mainAfterFetch args payload =
      (match parse_records payload with
       | [] => ⟨0, [pyStrip payload]⟩
       | r :: rs => ⟨0, (emitLoop args (r :: rs) 0).outputs⟩) := by
  rw [mainAfterFetch, h]
  simp

/-- C2: for every sequence of JSON mapping objects, a body that is the
single JSON array of those mappings parses to exactly those records, and
a body that is the same mappings as newline-delimited JSON parses to the
same records in the same order (before any filter is applied). -/
theorem c2_array_ndjson_roundtrip (objs : List PyDict)
    (h : ∀ o ∈ objs, wfJ (Json.obj o) = true) :
    parse_records (jsonDumps (Json.arr (objs.map Json.obj))) = objs ∧
    parse_records (joinNL (objs.map (fun o => jsonDumps (Json.obj o)))) = objs :=
  ⟨parse_records_array objs h, parse_records_ndjson objs h⟩

/-- `c2_array_ndjson_roundtrip` at a concrete two-record sequence. -/
theorem c2_roundtrip_witness :
    (∀ o ∈ [[("a", Json.num 1)], [("b", Json.str "x")]], wfJ (Json.obj o) = true) ∧
    (parse_records (jsonDumps (Json.arr ([[("a", Json.num 1)], [("b", Json.str "x")]].map Json.obj))) =
        [[("a", Json.num 1)], [("b", Json.str "x")]] ∧
      parse_records (joinNL ([[("a", Json.num 1)], [("b", Json.str "x")]].map
          (fun o => jsonDumps (Json.obj o)))) =
        [[("a", Json.num 1)], [("b", Json.str "x")]]) := by
  have hwf : ∀ o ∈ [[("a", Json.num 1)], [("b", Json.str "x")]], wfJ (Json.obj o) = true := by
    intro o ho
    rcases List.mem_cons.mp ho with rfl | ho2
    · rfl
    rcases List.mem_cons.mp ho2 with rfl | ho3
    · rfl
    · exact absurd ho3 (List.not_mem_nil o)
  exact ⟨hwf, c2_array_ndjson_roundtrip _ hwf⟩

end Logpull
namespace Logpull

/-- C4 (amended): when the whole body parses as JSON, a document that is
neither an array nor a mapping falls back to newline-delimited parsing,
but an array — even one containing no mapping elements — yields exactly
its mapping elements directly, with no newline-delimited fallback. -/
theorem c4_whole_body_shapes (body : String) (v : Json)
    (hne : (pyStripChars body.data).isEmpty = false)
    (hl : jsonLoads body = some v) :
    ((∀ items, v ≠ Json.arr items) → (∀ kvs, v ≠ Json.obj kvs) →
      parse_records body = parseLines body) ∧
    (∀ items, v = Json.arr items → parse_records body = recordsOfItems items) := by
  constructor
  · intro h1 h2
    rw [parse_records, hne]
    rw [hl]
    cases v with
    | null => rfl
    | bool b => rfl
    | num n => rfl
    | str s => rfl
    | arr items => exact absurd rfl (h1 items)
    | obj kvs => exact absurd rfl (h2 kvs)
  · intro items hv
    subst hv
    rw [parse_records, hne]
    rw [hl]
    rfl

/-- `c4_whole_body_shapes` at the bare-number body `7`, which falls back
to line parsing. -/
theorem c4_whole_body_witness :
    ((pyStripChars ("7" : String).data).isEmpty = false ∧
      jsonLoads "7" = some (Json.num 7)) ∧
    parse_records "7" = parseLines "7" :=
  ⟨⟨rfl, rfl⟩,
    (c4_whole_body_shapes "7" (Json.num 7) rfl rfl).1
      (fun _ h => Json.noConfusion h) (fun _ h => Json.noConfusion h)⟩

/-- A body that is a valid JSON array with no mapping elements yields no
records at all: the parser does not fall back to newline-delimited
parsing, which here would have produced one record. -/
theorem c4_array_no_fallback :
    jsonLoads "[[\n\x7b\"a\": 1\x7d\n]]" =
      some (Json.arr [Json.arr [Json.obj [("a", Json.num 1)]]]) ∧
    parse_records "[[\n\x7b\"a\": 1\x7d\n]]" = [] ∧
    parseLines "[[\n\x7b\"a\": 1\x7d\n]]" = [[("a", Json.num 1)]] := by
  refine ⟨rfl, rfl, rfl⟩

/-- C5 (amended): with `--raw` off and an empty or whitespace-only body,
the run exits 0 and prints exactly one line, the empty line produced by
`print(payload.strip())`. -/
theorem c5_empty_body (args : Args) (payload : String)
    (hraw : args.raw = false) (hws : pyStripChars payload.data = []) :
    mainAfterFetch args payload = ⟨0, [""]⟩ := by
  rw [mainAfterFetch_notraw args payload hraw]
  have hrec : parse_records payload = [] := by
    rw [parse_records, hws]
    rfl
  rw [hrec]
  have hstr : pyStrip payload = "" := by
    rw [pyStrip, hws]
  rw [hstr]

/-- `c5_empty_body` at a whitespace-only body. -/
theorem c5_empty_body_witness :
    (({} : Args).raw = false ∧ pyStripChars (" \n\t " : String).data = []) ∧
    mainAfterFetch {} " \n\t " = ⟨0, [""]⟩ :=
  ⟨⟨rfl, rfl⟩, c5_empty_body {} " \n\t " rfl rfl⟩

/-- On the empty body the program prints one (empty) stdout line, not
zero output lines. -/
theorem c5_one_line_not_zero :
    (mainAfterFetch {} "").exitCode = 0 ∧
    (mainAfterFetch {} "").stdoutLines = [""] ∧
    (mainAfterFetch {} "").stdoutLines ≠ [] := by
  refine ⟨rfl, rfl, ?_⟩
  intro h
  have h2 : ([""] : List String) = [] := h
  exact List.noConfusion h2

/-- A loop pass in which every record fails the filters prints nothing
and evaluates every record. -/
theorem emitLoop_allfail (args : Args) :
    ∀ l : List PyDict, ∀ count : Nat, (∀ rec ∈ l, passesFilters args rec = false) →
      emitLoop args l count = ⟨[], l⟩ := by
  intro l
  induction l with
  | nil => intro count _; rfl
  | cons r rs ih =>
    intro count hall
    have hr : passesFilters args r = false := hall r (List.mem_cons_self r rs)
    simp only [emitLoop, hr, Bool.false_eq_true, if_false]
    rw [ih count (fun rec hrec => hall rec (List.mem_cons_of_mem r hrec))]

/-- C3: the two zero-output shapes are distinct: a body with no parsed
records prints its stripped text and exits 0, while a body whose parsed
records are all rejected by the filters prints nothing and exits 0. -/
theorem c3_two_empty_cases (args : Args) (p1 p2 : String) (r : PyDict) (rs : List PyDict)
    (hraw : args.raw = false)
    (h1 : parse_records p1 = [])
    (h2 : parse_records p2 = r :: rs)
    (h3 : ∀ rec ∈ r :: rs, passesFilters args rec = false) :
    mainAfterFetch args p1 = ⟨0, [pyStrip p1]⟩ ∧
    mainAfterFetch args p2 = ⟨0, []⟩ := by
  constructor
  · rw [mainAfterFetch_notraw args p1 hraw, h1]
  · rw [mainAfterFetch_notraw args p2 hraw, h2]
    show RunOutput.mk 0 (emitLoop args (r :: rs) 0).outputs = ⟨0, []⟩
    rw [emitLoop_allfail args (r :: rs) 0 h3]

/-- `c3_two_empty_cases` at a plain-text body and a one-record body whose
record fails the `--ray` filter. -/
theorem c3_two_empty_cases_witness :
    (parse_records "plain text" = [] ∧
      parse_records "\x7b\"RayID\": \"def456\"\x7d" = [[("RayID", Json.str "def456")]] ∧
      (∀ rec ∈ [[("RayID", Json.str "def456")]],
        passesFilters { ray := some "abc" } rec = false)) ∧
    (mainAfterFetch { ray := some "abc" } "plain text" = ⟨0, [pyStrip "plain text"]⟩ ∧
      mainAfterFetch { ray := some "abc" } "\x7b\"RayID\": \"def456\"\x7d" = ⟨0, []⟩) := by
  have hall : ∀ rec ∈ [[("RayID", Json.str "def456")]],
      passesFilters { ray := some "abc" } rec = false := by
    intro rec hrec
    rcases List.mem_cons.mp hrec with rfl | hrec2
    · rfl
    · exact absurd hrec2 (List.not_mem_nil rec)
  exact ⟨⟨rfl, rfl, hall⟩,
    c3_two_empty_cases { ray := some "abc" } "plain text" "\x7b\"RayID\": \"def456\"\x7d"
      [("RayID", Json.str "def456")] [] rfl rfl rfl hall⟩

end Logpull
namespace Logpull

/-- A decimal digit is not Python whitespace. -/
theorem isPyWs_of_digit {c : Char} (h : 48 ≤ c.toNat) : isPyWs c = false := by
  have k : ∀ d : Char, d.toNat < 48 → decide (c = d) = false := fun d hd =>
    decide_eq_false (char_ne_of_toNat_ne (by omega))
  simp only [isPyWs]
  rw [k ' ' (by decide), k '\t' (by decide), k '\n' (by decide), k '\x0d' (by decide),
    k '\x0b' (by decide), k '\x0c' (by decide)]
  rfl

/-- `parse_duration` accepts the canonical numeral of `n` followed by a
unit letter and yields `n` times the unit length in seconds. -/
theorem parse_duration_units (n : Nat) (u : TimeUnit) :
    parse_duration ⟨decRepr n ++ [u.chr]⟩ = some (n * u.secs) := by
  obtain ⟨hne, hdig, hval⟩ := decRepr_facts n
  obtain ⟨c, cs, hcs⟩ := List.exists_cons_of_ne_nil hne
  have hc : 48 ≤ c.toNat ∧ c.toNat ≤ 57 := hdig c (by rw [hcs]; exact List.mem_cons_self c cs)
  have hstrip : pyStripChars (decRepr n ++ [u.chr]) = decRepr n ++ [u.chr] := by
    conv_lhs => rw [hcs, List.cons_append]
    rw [pyStripChars_noop c cs u.chr (isPyWs_of_digit hc.1) (by cases u <;> rfl)]
    rw [← List.cons_append, ← hcs]
  have hie : (decRepr n).isEmpty = false := by
    rw [hcs]; rfl
  have hall : (decRepr n).all isDigitChar = true := by
    rw [List.all_eq_true]
    intro x hx
    exact isDigitChar_of_bounds (hdig x hx)
  have huchr : (u.chr = 's' || u.chr = 'm' || u.chr = 'h' || u.chr = 'd') = true := by
    cases u <;> rfl
  simp only [parse_duration]
  rw [hstrip, List.getLast?_concat, List.dropLast_concat]
  simp [hie, hall, huchr, hval]
  cases u <;> exact Or.inl rfl

/-- C6: for every count `n` and unit in s, m, h, d, resolving the window
from the duration string `n` followed by the unit letter gives
`end = now` and `start = now - n * unit_seconds`, so the window length is
exactly `n` times the unit length. -/
theorem c6_duration_window (n : Nat) (u : TimeUnit) (startArg endArg : Option String)
    (now : Int) :
    resolveWindow (some ⟨decRepr n ++ [u.chr]⟩) startArg endArg now =
      .ok (now - (n * u.secs : Nat)) now ∧
    now - (now - ((n * u.secs : Nat) : Int)) = ((n * u.secs : Nat) : Int) := by
  constructor
  · have hne2 : (⟨decRepr n ++ [u.chr]⟩ : String) ≠ "" := by
      intro he
      have hd : decRepr n ++ [u.chr] = [] := congrArg String.data he
      exact absurd hd (by simp)
    have ht : truthy (some (⟨decRepr n ++ [u.chr]⟩ : String)) = true := by
      simp [truthy, hne2]
    simp only [resolveWindow, ht, if_true, Option.getD_some]
    rw [parse_duration_units]
  · omega

/-- C8: with records mapping `RayID` to `abc123` and `ray_id` to
`xyz999` and the filter `--ray abc`, exactly the first record is
emitted; the alias lookup resolves each record's first present alias
key, and the substring test is case-sensitive. -/
theorem c8_ray_alias_filter :
    (mainAfterFetch { ray := some "abc" }
        "[\x7b\"RayID\": \"abc123\"\x7d, \x7b\"ray_id\": \"xyz999\"\x7d]").stdoutLines =
      ["\x7b\"RayID\": \"abc123\"\x7d"] ∧
    get_value [("RayID", Json.str "abc123")] rayKeys = some "abc123" ∧
    get_value [("ray_id", Json.str "xyz999")] rayKeys = some "xyz999" ∧
    strContains "abc123" "abc" = true ∧
    strContains "xyz999" "abc" = false ∧
    (mainAfterFetch { ray := some "ABC" }
        "[\x7b\"RayID\": \"abc123\"\x7d]").stdoutLines = [] := by
  refine ⟨rfl, rfl, rfl, rfl, rfl, rfl⟩

/-- C9: a record whose highest-priority alias key is present with a null
value resolves to no value at all, so the field filter rejects it even
though a lower-priority alias key holds a matching value. -/
theorem c9_null_highest_alias (record : PyDict) (args : Args) (flt s : String)
    (hray : args.ray = some flt) (hflt : flt ≠ "")
    (hfirst : assocFind record "RayID" = some Json.null)
    (hlow : assocFind record "ray_id" = some (Json.str s))
    (hsub : strContains s flt = true) :
    get_value record rayKeys = none ∧
    passesFilters args record = false ∧
    (emitLoop args [record] 0).outputs = [] := by
  have hget : get_value record rayKeys = none := by
    show get_value record ("RayID" :: "RayId" :: "ray_id" :: []) = none
    simp only [get_value, hfirst]
  have htr : truthy (some flt) = true := by simp [truthy, hflt]
  have hfp : fieldPass (some flt) rayKeys record = false := by
    simp only [fieldPass, htr, if_true]
    rw [hget]
  have hpf : passesFilters args record = false := by
    simp only [passesFilters, hray, hfp, Bool.false_and]
  refine ⟨hget, hpf, ?_⟩
  simp only [emitLoop, hpf, Bool.false_eq_true, if_false]

/-- `c9_null_highest_alias` at a concrete record carrying a null `RayID`
and a matching `ray_id`. -/
theorem c9_null_highest_alias_witness :
    (({ ray := some "abc" } : Args).ray = some "abc" ∧ "abc" ≠ "" ∧
      assocFind [("RayID", Json.null), ("ray_id", Json.str "abc123")] "RayID" =
        some Json.null ∧
      assocFind [("RayID", Json.null), ("ray_id", Json.str "abc123")] "ray_id" =
        some (Json.str "abc123") ∧
      strContains "abc123" "abc" = true) ∧
    (get_value [("RayID", Json.null), ("ray_id", Json.str "abc123")] rayKeys = none ∧
      passesFilters { ray := some "abc" }
        [("RayID", Json.null), ("ray_id", Json.str "abc123")] = false ∧
      (emitLoop { ray := some "abc" }
        [[("RayID", Json.null), ("ray_id", Json.str "abc123")]] 0).outputs = []) :=
  ⟨⟨rfl, by decide, rfl, rfl, rfl⟩,
    c9_null_highest_alias [("RayID", Json.null), ("ray_id", Json.str "abc123")]
      { ray := some "abc" } "abc" "abc123" rfl (by decide) rfl rfl rfl⟩

end Logpull
namespace Logpull

/-- `matchCount` over a cons: the head contributes when it passes. -/
theorem matchCount_cons (args : Args) (r : PyDict) (rs : List PyDict) :
    matchCount args (r :: rs) =
      (if passesFilters args r = true then 1 else 0) + matchCount args rs := by
  simp only [matchCount, List.filter_cons]
  by_cases hp : passesFilters args r = true
  · rw [if_pos hp, if_pos hp, List.length_cons]
    omega
  · rw [if_neg hp, if_neg hp]
    omega

/-- A truthy limit that the incremented count has reached reads true. -/
theorem limitReached_of_le (L c : Nat) (h0 : 0 < L) (h : L ≤ c) :
    limitReached (some (L : Int)) c = true := by
  rw [limitReached]
  have h1 : ¬((L : Int) = 0) := by omega
  have h2 : (L : Int) ≤ (c : Int) := by omega
  rw [decide_eq_false h1, decide_eq_true h2]
  rfl

/-- A limit still ahead of the count reads false. -/
theorem limitReached_of_lt (L c : Nat) (h : c < L) :
    limitReached (some (L : Int)) c = false := by
  rw [limitReached]
  have h2 : ¬((L : Int) ≤ (c : Int)) := by omega
  rw [decide_eq_false h2]
  exact Bool.and_false _

/-- Loop step: a passing record at the limit prints and breaks. -/
theorem emitLoop_cons_pass_break (args : Args) (r : PyDict) (rs : List PyDict) (count : Nat)
    (hp : passesFilters args r = true) (hl : limitReached args.limit (count + 1) = true) :
    emitLoop args (r :: rs) count = ⟨[jsonDumps (Json.obj r)], [r]⟩ := by
  simp only [emitLoop]
  rw [if_pos hp, if_pos hl]

/-- Loop step: a passing record below the limit prints and continues. -/
theorem emitLoop_cons_pass_go (args : Args) (r : PyDict) (rs : List PyDict) (count : Nat)
    (hp : passesFilters args r = true) (hl : limitReached args.limit (count + 1) = false) :
    emitLoop args (r :: rs) count =
      ⟨jsonDumps (Json.obj r) :: (emitLoop args rs (count + 1)).outputs,
        r :: (emitLoop args rs (count + 1)).evaluated⟩ := by
  simp only [emitLoop]
  rw [if_pos hp, hl, if_neg Bool.false_ne_true]

/-- Loop step: a failing record prints nothing, the count stands still. -/
theorem emitLoop_cons_fail (args : Args) (r : PyDict) (rs : List PyDict) (count : Nat)
    (hp : passesFilters args r = false) :
    emitLoop args (r :: rs) count =
      ⟨(emitLoop args rs count).outputs, r :: (emitLoop args rs count).evaluated⟩ := by
  simp only [emitLoop]
  rw [hp, if_neg Bool.false_ne_true]

/-- Running the output loop from `count` already-printed records under a
truthy limit `L` while at least `L - count` matches remain: the loop
stops right at its `L - count`-th match, printing exactly the matching
records seen so far and leaving the rest of the sequence unevaluated. -/
theorem emitLoop_limit_run (args : Args) (L : Nat) (hlim : args.limit = some (L : Int)) :
    ∀ records : List PyDict, ∀ count : Nat, count < L → L ≤ count + matchCount args records →
    ∃ pre l suf, records = pre ++ l :: suf ∧
      passesFilters args l = true ∧
      matchCount args (pre ++ [l]) = L - count ∧
      (emitLoop args records count).evaluated = pre ++ [l] ∧
      (emitLoop args records count).outputs =
        ((records.filter (passesFilters args)).take (L - count)).map
          (fun r => jsonDumps (Json.obj r)) := by
  intro records
  induction records with
  | nil =>
    intro count h1 h2
    rw [show matchCount args [] = 0 from rfl] at h2
    omega
  | cons r rs ih =>
    intro count h1 h2
    rw [matchCount_cons] at h2
    cases hp : passesFilters args r with
    | true =>
      rw [if_pos hp] at h2
      by_cases hr : L ≤ count + 1
      · have hlr : limitReached args.limit (count + 1) = true := by
          rw [hlim]
          exact limitReached_of_le L (count + 1) (by omega) hr
        rw [emitLoop_cons_pass_break args r rs count hp hlr]
        refine ⟨[], r, rs, by simp, hp, ?_, by simp, ?_⟩
        · rw [List.nil_append, matchCount_cons, if_pos hp]
          rw [show matchCount args [] = 0 from rfl]
          omega
        · rw [List.filter_cons, if_pos hp]
          rw [show L - count = 1 from by omega]
          rw [List.take_succ_cons, List.take_zero, List.map_cons, List.map_nil]
      · have hlr : limitReached args.limit (count + 1) = false := by
          rw [hlim]
          exact limitReached_of_lt L (count + 1) (by omega)
        rw [emitLoop_cons_pass_go args r rs count hp hlr]
        obtain ⟨pre, l, suf, heq, hl, hmc, hev, hout⟩ := ih (count + 1) (by omega) (by omega)
        refine ⟨r :: pre, l, suf, by rw [heq, List.cons_append], hl, ?_, ?_, ?_⟩
        · rw [List.cons_append, matchCount_cons, if_pos hp, hmc]
          omega
        · show r :: (emitLoop args rs (count + 1)).evaluated = (r :: pre) ++ [l]
          rw [hev, List.cons_append]
        · show jsonDumps (Json.obj r) :: (emitLoop args rs (count + 1)).outputs =
            (((r :: rs).filter (passesFilters args)).take (L - count)).map
              (fun x => jsonDumps (Json.obj x))
          rw [List.filter_cons, if_pos hp]
          rw [show L - count = L - (count + 1) + 1 from by omega]
          rw [List.take_succ_cons, List.map_cons, hout]
    | false =>
      rw [hp, if_neg Bool.false_ne_true] at h2
      rw [emitLoop_cons_fail args r rs count hp]
      obtain ⟨pre, l, suf, heq, hl, hmc, hev, hout⟩ := ih count h1 (by omega)
      refine ⟨r :: pre, l, suf, by rw [heq, List.cons_append], hl, ?_, ?_, ?_⟩
      · rw [List.cons_append, matchCount_cons, hp, if_neg Bool.false_ne_true, hmc]
        omega
      · show r :: (emitLoop args rs count).evaluated = (r :: pre) ++ [l]
        rw [hev, List.cons_append]
      · show (emitLoop args rs count).outputs =
          (((r :: rs).filter (passesFilters args)).take (L - count)).map
            (fun x => jsonDumps (Json.obj x))
        rw [List.filter_cons, hp, if_neg Bool.false_ne_true, hout]

/-- C7: with a positive limit L and at least L matching records, the
loop prints exactly the serializations of the first L matching records,
and evaluation short-circuits at the L-th match: the records after it
are never tested against the filters. -/
theorem c7_limit_short_circuit (args : Args) (records : List PyDict) (L : Nat)
    (hlim : args.limit = some (L : Int)) (hpos : 0 < L)
    (hmatch : L ≤ matchCount args records) :
    (emitLoop args records 0).outputs =
      ((records.filter (passesFilters args)).take L).map (fun r => jsonDumps (Json.obj r)) ∧
    (emitLoop args records 0).outputs.length = L ∧
    ∃ pre l suf, records = pre ++ l :: suf ∧
      passesFilters args l = true ∧ matchCount args (pre ++ [l]) = L ∧
      (emitLoop args records 0).evaluated = pre ++ [l] := by
  obtain ⟨pre, l, suf, heq, hl, hmc, hev, hout⟩ :=
    emitLoop_limit_run args L hlim records 0 hpos (by omega)
  rw [Nat.sub_zero] at hmc hout
  refine ⟨hout, ?_, pre, l, suf, heq, hl, hmc, hev⟩
  rw [hout, List.length_map, List.length_take]
  have h5 : L ≤ (records.filter (passesFilters args)).length := hmatch
  omega

/-- `c7_limit_short_circuit` with limit 2 over five matching records. -/
theorem c7_limit_witness :
    (({ ray := some "a", limit := some 2 } : Args).limit = some ((2 : Nat) : Int) ∧
      0 < 2 ∧
      2 ≤ matchCount { ray := some "a", limit := some 2 }
        [[("RayID", Json.str "abc")], [("RayID", Json.str "abc")], [("RayID", Json.str "abc")],
          [("RayID", Json.str "abc")], [("RayID", Json.str "abc")]]) ∧
    (emitLoop { ray := some "a", limit := some 2 }
        [[("RayID", Json.str "abc")], [("RayID", Json.str "abc")], [("RayID", Json.str "abc")],
          [("RayID", Json.str "abc")], [("RayID", Json.str "abc")]] 0).outputs.length = 2 :=
  ⟨⟨rfl, by decide, by decide⟩,
    (c7_limit_short_circuit { ray := some "a", limit := some 2 }
      [[("RayID", Json.str "abc")], [("RayID", Json.str "abc")], [("RayID", Json.str "abc")],
        [("RayID", Json.str "abc")], [("RayID", Json.str "abc")]] 2 rfl (by decide)
      (by decide)).2.1⟩

/-- C10: a `--limit` of 0 is falsy in the loop's break test, so it
imposes no cap at all: the loop behaves exactly as with no limit and
prints every record that passes the filters, rather than zero records. -/
theorem c10_limit_zero_uncapped (args : Args) (records : List PyDict) (count : Nat) :
    emitLoop { args with limit := some 0 } records count =
      emitLoop { args with limit := none } records count ∧
    (emitLoop { args with limit := some 0 } records count).outputs =
      (records.filter (passesFilters { args with limit := some 0 })).map
        (fun r => jsonDumps (Json.obj r)) := by
  induction records generalizing count with
  | nil => exact ⟨rfl, rfl⟩
  | cons r rs ih =>
    have hz : limitReached ({ args with limit := some 0 } : Args).limit (count + 1) = false := by
      rw [show ({ args with limit := some 0 } : Args).limit = some 0 from rfl, limitReached]
      rw [decide_eq_true (rfl : (0 : Int) = 0)]
      rfl
    have hn : limitReached ({ args with limit := none } : Args).limit (count + 1) = false := rfl
    cases hp : passesFilters { args with limit := some 0 } r with
    | true =>
      have hp2 : passesFilters { args with limit := none } r = true := hp
      rw [emitLoop_cons_pass_go _ r rs count hp hz, emitLoop_cons_pass_go _ r rs count hp2 hn]
      constructor
      · rw [(ih (count + 1)).1]
      · show jsonDumps (Json.obj r) ::
          (emitLoop { args with limit := some 0 } rs (count + 1)).outputs =
          (((r :: rs).filter (passesFilters { args with limit := some 0 })).map
            (fun x => jsonDumps (Json.obj x)))
        rw [List.filter_cons, if_pos hp, List.map_cons, (ih (count + 1)).2]
    | false =>
      have hp2 : passesFilters { args with limit := none } r = false := hp
      rw [emitLoop_cons_fail _ r rs count hp, emitLoop_cons_fail _ r rs count hp2]
      constructor
      · rw [(ih count).1]
      · show (emitLoop { args with limit := some 0 } rs count).outputs =
          (((r :: rs).filter (passesFilters { args with limit := some 0 })).map
            (fun x => jsonDumps (Json.obj x)))
        rw [List.filter_cons, hp, if_neg Bool.false_ne_true, (ih count).2]

end Logpull
namespace Logpull

/-- C1 (amended): with credentials present, a run that supplies neither
a truthy `--since` nor a complete truthy `--from`/`--to` pair stops with
the usage error and exit 1 before any network activity; but a run that
supplies a parseable `--since` together with both `--from` and `--to`
is not a usage error: `--since` wins and the network call is attempted. -/
theorem c1_window_usage (a1 a2 : Args) (env : String → Option String) (now : Int)
    (fetch : FetchOutcome) (dur : Nat)
    (hacct : truthy (read_env env "CLOUDFLARE_ACCOUNT_ID" none) = true)
    (htok : truthy (read_env env "CLOUDFLARE_API_TOKEN" none) = true)
    (h1s : truthy a1.since = false)
    (h1se : truthy a1.start = false ∨ truthy a1.endArg = false)
    (h2s : truthy a2.since = true)
    (h2d : parse_duration (a2.since.getD "") = some dur)
    (h2f : truthy a2.start = true) (h2t : truthy a2.endArg = true) :
    main a1 env now fetch = ⟨1, [], ["Provide --since or both --from/--to"], false, none⟩ ∧
    (main a2 env now fetch).networkAttempted = true := by
  constructor
  · have hw1 : resolveWindow a1.since a1.start a1.endArg now =
        .usageError "Provide --since or both --from/--to" := by
      rw [resolveWindow, h1s]
      rw [if_neg Bool.false_ne_true]
      have hc : (!truthy a1.start || !truthy a1.endArg) = true := by
        rcases h1se with h | h
        · rw [h]
          rfl
        · rw [h]
          simp
      rw [hc, if_pos rfl]
    simp only [main, hacct, htok, Bool.not_true, Bool.or_self, Bool.false_eq_true, if_false,
      hw1]
  · have hw2 : resolveWindow a2.since a2.start a2.endArg now = .ok (now - dur) now := by
      rw [resolveWindow, if_pos h2s, h2d]
    simp only [main, hacct, htok, Bool.not_true, Bool.or_self, Bool.false_eq_true, if_false,
      hw2]
    cases fetch <;> rfl

/-- `c1_window_usage` at an empty argument set and one supplying
`--since 15m` together with an explicit `--from`/`--to` pair. -/
theorem c1_window_usage_witness :
    (truthy (read_env
        (fun name => if name = "CLOUDFLARE_ACCOUNT_ID" then some "acct"
          else if name = "CLOUDFLARE_API_TOKEN" then some "tok" else none)
        "CLOUDFLARE_ACCOUNT_ID" none) = true ∧
      truthy (({} : Args).since) = false ∧
      truthy (({ since := some "15m", start := some "2026-01-01T00:00:00Z", endArg := some "2026-01-02T00:00:00Z" } : Args).since) = true ∧
      parse_duration ((({ since := some "15m", start := some "2026-01-01T00:00:00Z", endArg := some "2026-01-02T00:00:00Z" } : Args).since).getD "") = some 900) ∧
    (main {} (fun name => if name = "CLOUDFLARE_ACCOUNT_ID" then some "acct"
          else if name = "CLOUDFLARE_API_TOKEN" then some "tok" else none) 1700000000
        (.ok "") = ⟨1, [], ["Provide --since or both --from/--to"], false, none⟩ ∧
      (main { since := some "15m", start := some "2026-01-01T00:00:00Z", endArg := some "2026-01-02T00:00:00Z" }
        (fun name => if name = "CLOUDFLARE_ACCOUNT_ID" then some "acct"
          else if name = "CLOUDFLARE_API_TOKEN" then some "tok" else none) 1700000000
        (.ok "")).networkAttempted = true) :=
  ⟨⟨rfl, rfl, rfl, rfl⟩,
    c1_window_usage {}
      { since := some "15m", start := some "2026-01-01T00:00:00Z", endArg := some "2026-01-02T00:00:00Z" }
      (fun name => if name = "CLOUDFLARE_ACCOUNT_ID" then some "acct"
        else if name = "CLOUDFLARE_API_TOKEN" then some "tok" else none) 1700000000
      (.ok "") 900 rfl rfl rfl (Or.inl rfl) rfl rfl rfl rfl⟩

/-- A run supplying both `--since` and a full `--from`/`--to` pair is
not treated as a usage error: the network call is attempted, no message
reaches stderr and the exit status is 0. -/
theorem c1_both_supplied_no_error :
    (main { since := some "15m", start := some "2026-01-01T00:00:00Z", endArg := some "2026-01-02T00:00:00Z" }
      (fun name => if name = "CLOUDFLARE_ACCOUNT_ID" then some "acct"
        else if name = "CLOUDFLARE_API_TOKEN" then some "tok" else none) 1700000000
      (.ok "")).networkAttempted = true ∧
    (main { since := some "15m", start := some "2026-01-01T00:00:00Z", endArg := some "2026-01-02T00:00:00Z" }
      (fun name => if name = "CLOUDFLARE_ACCOUNT_ID" then some "acct"
        else if name = "CLOUDFLARE_API_TOKEN" then some "tok" else none) 1700000000
      (.ok "")).exitCode = 0 ∧
    (main { since := some "15m", start := some "2026-01-01T00:00:00Z", endArg := some "2026-01-02T00:00:00Z" }
      (fun name => if name = "CLOUDFLARE_ACCOUNT_ID" then some "acct"
        else if name = "CLOUDFLARE_API_TOKEN" then some "tok" else none) 1700000000
      (.ok "")).stderrLines = [] := by
  refine ⟨rfl, rfl, rfl⟩

end Logpull
